import Mathlib

/-!
Shallow embedding of the circuit-simulation core of the ArduinoSimulator
repository, together with theorems settling the frozen claims about it.

All floating-point arithmetic of the source is modelled over `ℚ`; the
`std::log` call inside the LED brightness saturation branch is abstracted
as an arbitrary function parameter `lg`, since no claim depends on its
values.
-/

namespace ArduinoSim

/-! ### LED conduction model (src/src/core/LED.cpp) -/

/-- `LED::OFF_RESISTANCE` (LED.h): resistance when the LED is off. -/
def OFF_RESISTANCE : ℚ := 1000000

/-- `LED::MIN_CONDUCTION_CURRENT` (LED.h): minimum detectable current. -/
def MIN_CONDUCTION_CURRENT : ℚ := 1 / 1000000

/-- State of an `LED` object: the fields of LED.cpp that the conduction
model reads and writes (`m_voltage`/`m_current` are inherited from
`ElectricalComponent`). -/
structure LEDState where
  isOn : Bool
  brightness : ℚ
  forwardVoltage : ℚ
  forwardCurrent : ℚ
  maxCurrent : ℚ
  dynamicResistance : ℚ
  voltage : ℚ
  current : ℚ
  deriving Repr, DecidableEq

/-- `LED::calculateBrightness` (LED.cpp lines 84-108). `lg` stands for
`std::log`. -/
def LED.calculateBrightness (lg : ℚ → ℚ) (led : LEDState) (current : ℚ) : ℚ :=
  if current ≤ MIN_CONDUCTION_CURRENT then 0
  else if current ≤ led.forwardCurrent then current / led.forwardCurrent
  else
    let excess := current - led.forwardCurrent
    let maxExcess := led.maxCurrent - led.forwardCurrent
    if 0 < maxExcess then
      min 1 (1 + 3 / 10 * lg (1 + excess / maxExcess))
    else 1

/-- `LED::calculateDynamicResistance` (LED.cpp lines 110-126). -/
def LED.calculateDynamicResistance (led : LEDState) (current : ℚ) : ℚ :=
  if current ≤ MIN_CONDUCTION_CURRENT then OFF_RESISTANCE
  else 25 + led.forwardVoltage / current

/-- `LED::calculateElectricalState` (LED.cpp lines 56-82). The C++ stores
`forwardBiased && aboveThreshold && sufficientCurrent` in `m_isOn`; it is
rendered here as a decidable conjunction. -/
def LED.calculateElectricalState (lg : ℚ → ℚ) (led : LEDState) : LEDState :=
  let absCurrent := |led.current|
  let absVoltage := |led.voltage|
  if (0 < led.voltage ∧ 0 < led.current) ∧ led.forwardVoltage ≤ absVoltage
      ∧ MIN_CONDUCTION_CURRENT < absCurrent then
    { led with
        isOn := true
        brightness := LED.calculateBrightness lg led absCurrent
        dynamicResistance := LED.calculateDynamicResistance led absCurrent }
  else
    { led with isOn := false, brightness := 0, dynamicResistance := OFF_RESISTANCE }

/-- `LED::updateState` (LED.cpp lines 34-54): stores (V, I) via
`ElectricalComponent::updateState` and recomputes the conduction state.
(The overload check and signal emissions do not change these fields.) -/
def LED.updateState (lg : ℚ → ℚ) (led : LEDState) (voltage current : ℚ) : LEDState :=
  LED.calculateElectricalState lg { led with voltage := voltage, current := current }

/-- A red `LED` as built by the `LED` constructor (LED.cpp lines 6-27). -/
def LED.red : LEDState :=
  { isOn := false, brightness := 0, forwardVoltage := 9 / 5, forwardCurrent := 1 / 50
    maxCurrent := 1 / 40, dynamicResistance := OFF_RESISTANCE, voltage := 0, current := 0 }

/-! ### Digital pin (src/src/core/ArduinoPin.cpp) -/

/-- `ArduinoPin::PinMode` (ArduinoPin.h). -/
inductive PinMode where
  | input
  | output
  | inputPullup
  | analogInput
  | analogOutput
  deriving Repr, DecidableEq

/-- Supply voltage `ArduinoPin::VCC`. -/
def VCC : ℚ := 5

/-- Fields of a `DigitalPin` object touched by `digitalWrite`
(ArduinoPin.h / ArduinoPin.cpp). -/
structure DigitalPinState where
  mode : PinMode
  digitalState : Bool
  setValue : ℚ
  outputVoltage : ℚ
  inputVoltage : ℚ
  outputCurrent : ℚ
  pwmValue : ℤ
  pwmTimerActive : Bool
  deriving Repr, DecidableEq

/-- Signals a `DigitalPin` call may emit. -/
structure PinSignals where
  pinValueChanged : Bool
  componentChanged : Bool
  deriving Repr, DecidableEq

/-- `DigitalPin::updateOutputState` (ArduinoPin.cpp lines 243-249). -/
def DigitalPin.updateOutputState (p : DigitalPinState) : DigitalPinState :=
  if p.mode = PinMode.output then { p with outputVoltage := p.setValue } else p

/-- `DigitalPin::digitalWrite` (ArduinoPin.cpp lines 175-196). Returns the
new pin state and which signals were emitted. -/
def DigitalPin.digitalWrite (p : DigitalPinState) (value : Bool) :
    DigitalPinState × PinSignals :=
  if p.mode ≠ PinMode.output then
    (p, ⟨false, false⟩)
  else
    let p := { p with digitalState := value, setValue := if value then VCC else 0 }
    let p := if p.pwmTimerActive then { p with pwmTimerActive := false, pwmValue := 0 } else p
    let p := DigitalPin.updateOutputState p
    (p, ⟨true, true⟩)

/-- A `DigitalPin` right after construction (ArduinoPin.cpp lines 156-173),
with a chosen mode. -/
def DigitalPin.mk0 (mode : PinMode) : DigitalPinState :=
  { mode := mode, digitalState := false, setValue := 0, outputVoltage := 0
    inputVoltage := 0, outputCurrent := 0, pwmValue := 0, pwmTimerActive := false }

/-! ### Circuit graph (src/src/simulation/Circuit.cpp, Node.cpp,
ElectricalComponent.cpp)

Component and node objects are identified by natural numbers.  `conn n` is
the `m_connections` vector of node object `n`; `term c` is the
`m_terminals` vector of component object `c` (its length is the terminal
count, fixed at construction).  Both maps describe the whole object heap;
`comps` and `nodesList` are the circuit's membership lists `m_components`
and `m_nodes`.  A node removed from `m_nodes` (`deleteLater`) keeps its
heap entry, which models the dangling object.  `changedCount` counts
`circuitChanged` emissions. -/

structure CircuitState where
  comps : List ℕ
  nodesList : List ℕ
  ground : ℕ
  conn : ℕ → List (ℕ × ℕ)
  term : ℕ → List (Option ℕ)
  external : List ℕ
  nextNode : ℕ
  changedCount : ℕ

/-- `Node::addComponent` (Node.cpp lines 14-17): appends the pair. -/
def nodeAddComponent (s : CircuitState) (n c t : ℕ) : CircuitState :=
  { s with conn := fun m => if m = n then s.conn n ++ [(c, t)] else s.conn m }

/-- `Node::removeComponent` (Node.cpp lines 19-26): removes every pair
whose component is `c`, whatever its terminal. -/
def nodeRemoveComponent (s : CircuitState) (n c : ℕ) : CircuitState :=
  { s with conn := fun m => if m = n then (s.conn n).filter (fun p => p.1 ≠ c) else s.conn m }

/-- `ElectricalComponent::getNode` (ElectricalComponent.cpp lines 30-36). -/
def getNode (s : CircuitState) (c t : ℕ) : Option ℕ :=
  (s.term c).getD t none

/-- `ElectricalComponent::connectToNode` (ElectricalComponent.cpp lines
12-20): overwrites the terminal entry and appends the pair to the new
node's list.  The previously bound node is not touched. -/
def connectToNode (s : CircuitState) (c : ℕ) (node : Option ℕ) (t : ℕ) : CircuitState :=
  if t < (s.term c).length then
    let s1 : CircuitState :=
      { s with term := fun d => if d = c then (s.term c).set t node else s.term d }
    match node with
    | some n => nodeAddComponent s1 n c t
    | none => s1
  else s

/-- `ElectricalComponent::disconnectFromNode` (ElectricalComponent.cpp
lines 22-28). -/
def disconnectFromNode (s : CircuitState) (c t : ℕ) : CircuitState :=
  match (s.term c).getD t none with
  | some n =>
    let s1 := nodeRemoveComponent s n c
    { s1 with term := fun d => if d = c then (s1.term c).set t none else s1.term d }
  | none => s

/-- `Circuit::createNode` (Circuit.cpp lines 57-62): a fresh node object
with an empty incidence list, appended to `m_nodes`. -/
def createNode (s : CircuitState) : CircuitState × ℕ :=
  ({ s with
      nodesList := s.nodesList ++ [s.nextNode]
      conn := fun m => if m = s.nextNode then [] else s.conn m
      nextNode := s.nextNode + 1 }, s.nextNode)

/-- `Circuit::removeNode` (Circuit.cpp lines 64-69): `removeOne` from
`m_nodes`; the object is only `deleteLater`d, so its heap entry stays. -/
def removeNode (s : CircuitState) (n : ℕ) : CircuitState :=
  { s with nodesList := s.nodesList.erase n }

/-- `Circuit::addComponent` (Circuit.cpp lines 37-50).  `isArduinoPin`
models `qobject_cast<ArduinoPin*>(component) && pin->getArduino()`. -/
def addComponent (s : CircuitState) (c? : Option ℕ) (isArduinoPin : Bool) : CircuitState :=
  match c? with
  | none => s
  | some c =>
    if c ∈ s.comps then s
    else
      let s1 := if isArduinoPin ∧ c ∉ s.external then
          { s with external := s.external ++ [c] } else s
      { s1 with comps := s1.comps ++ [c], changedCount := s1.changedCount + 1 }

/-- The node-merging loop of `Circuit::connectComponents` (Circuit.cpp
lines 195-199): for each pair of the loser's copied connection list,
disconnect that terminal and reconnect it to the survivor. -/
def mergeLoop (s : CircuitState) (pairs : List (ℕ × ℕ)) (n1 : ℕ) : CircuitState :=
  pairs.foldl (fun s p => connectToNode (disconnectFromNode s p.1 p.2) p.1 (some n1) p.2) s

/-- `Circuit::connectComponents` (Circuit.cpp lines 144-209).  C++ also
rejects negative terminal indices; terminals are naturals here.  Returns
the new state and the boolean result. -/
def connectComponents (s : CircuitState) (c1? c2? : Option ℕ) (t1 t2 : ℕ) :
    CircuitState × Bool :=
  match c1?, c2? with
  | some c1, some c2 =>
    if t1 < (s.term c1).length ∧ t2 < (s.term c2).length then
      match getNode s c1 t1, getNode s c2 t2 with
      | some n1, some n2 =>
        if n1 = n2 then (s, true)
        else
          let s1 := mergeLoop s (s.conn n2) n1
          (removeNode s1 n2, true)
      | some n1, none => (connectToNode s c2 (some n1) t2, true)
      | none, some n2 => (connectToNode s c1 (some n2) t1, true)
      | none, none =>
        let (s1, n) := createNode s
        (connectToNode (connectToNode s1 c1 (some n) t1) c2 (some n) t2, true)
    else (s, false)
  | _, _ => (s, false)

/-- `Circuit::connectComponentToNode` (Circuit.cpp lines 211-227). -/
def connectComponentToNode (s : CircuitState) (c? : Option ℕ) (t : ℕ) (n? : Option ℕ) :
    CircuitState × Bool :=
  match c?, n? with
  | some c, some n =>
    if t < (s.term c).length then (connectToNode s c (some n) t, true)
    else (s, false)
  | _, _ => (s, false)

/-- The terminal loop of the one-argument `Circuit::disconnectComponent`
(Circuit.cpp lines 507-518), after `k` iterations. -/
def disconnectLoop (c : ℕ) (s : CircuitState) (k : ℕ) : CircuitState :=
  (List.range k).foldl
    (fun s1 i => match getNode s1 c i with
      | some _ => disconnectFromNode s1 c i
      | none => s1) s

/-- The one-argument `Circuit::disconnectComponent` (Circuit.cpp lines
507-518): disconnect every bound terminal.  It never prunes nodes. -/
def disconnectComponentAll (s : CircuitState) (c : ℕ) : CircuitState :=
  disconnectLoop c s (s.term c).length

/-- `Circuit::removeComponentSafely` (Circuit.cpp lines 520-540).  The
second result is true when the component object was `deleteLater`d. -/
def removeComponentSafely (s : CircuitState) (c? : Option ℕ) : CircuitState × Bool :=
  match c? with
  | none => (s, false)
  | some c =>
    let s1 := disconnectComponentAll s c
    if c ∈ s1.comps then
      let s2 := { s1 with comps := s1.comps.erase c }
      if c ∈ s2.external then
        ({ s2 with external := s2.external.erase c, changedCount := s2.changedCount + 1 }, false)
      else
        ({ s2 with changedCount := s2.changedCount + 1 }, true)
    else (s1, false)

/-- A circuit as built by the `Circuit` constructor (Circuit.cpp lines
12-26): one ground node (id 0) and the given heap of component objects
(`termTable c` is component `c`'s terminal vector, all entries unbound). -/
def emptyCircuit (termTable : ℕ → List (Option ℕ)) : CircuitState :=
  { comps := [], nodesList := [0], ground := 0, conn := fun _ => []
    term := termTable, external := [], nextNode := 1, changedCount := 0 }

/-- Heap with a single two-terminal component (id 0). -/
def oneCompTable : ℕ → List (Option ℕ) := fun c => if c = 0 then [none, none] else []

/-- Heap with two two-terminal components (ids 0 and 1). -/
def twoCompTable : ℕ → List (Option ℕ) := fun c => if c ≤ 1 then [none, none] else []

/-- Rebinding scenario for claim C2: component 0's terminal 0 is connected
to node 1, then reconnected to node 2. -/
def rebindExample : CircuitState :=
  let s1 := (createNode (emptyCircuit oneCompTable)).1
  let s2 := (createNode s1).1
  let s3 := (connectComponentToNode s2 (some 0) 0 (some 1)).1
  (connectComponentToNode s3 (some 0) 0 (some 2)).1

/-- Removal scenario for claim C6, before the removal: component 0 is
added to the circuit and connected to fresh node 1. -/
def removeExampleBefore : CircuitState :=
  let s1 := (createNode (emptyCircuit oneCompTable)).1
  let s2 := addComponent s1 (some 0) false
  (connectComponentToNode s2 (some 0) 0 (some 1)).1

/-- Removal scenario for claim C6: the removal call. -/
def removeExample : CircuitState × Bool :=
  removeComponentSafely removeExampleBefore (some 0)

/-- Connection scenario for claim C7: components 0 and 1 are added, then
connected at their terminals 0. -/
def connectEmitExampleBefore : CircuitState :=
  addComponent (addComponent (emptyCircuit twoCompTable) (some 0) false) (some 1) false

/-- The `connectComponents` call of the claim C7 scenario. -/
def connectEmitExample : CircuitState × Bool :=
  connectComponents connectEmitExampleBefore (some 0) (some 1) 0 0

/-- Merge scenario for claim C3's witness: component 0 on node 1, component
1 on node 2, then `connect(0, 0, 1, 0)` merges node 2 into node 1. -/
def mergeExampleBefore : CircuitState :=
  let s1 := (createNode connectEmitExampleBefore).1
  let s2 := (connectComponentToNode s1 (some 0) 0 (some 1)).1
  let s3 := (createNode s2).1
  (connectComponentToNode s3 (some 1) 0 (some 2)).1

end ArduinoSim

namespace ArduinoSim

/-! ### Matrix solver (src/src/simulation/MatrixSolver.cpp)

The dense matrix is a list of row lists over `ℚ`; the solver is the
repository's own Gaussian-elimination fallback (the `#else` branch of
`HAVE_EIGEN3`).  For a non-singular system it computes the same unique
solution as the Eigen path. -/

/-- `MatrixSolver::m_epsilon` (1e-10). -/
def mEps : ℚ := 1 / 10000000000

/-- State of a `MatrixSolver` object. -/
structure MSolve where
  dim : ℕ
  g : List (List ℚ)
  rhs : List ℚ
  isSetup : Bool
  deriving Repr, DecidableEq

/-- Read entry (i, j) of a dense matrix (out of range reads as 0). -/
def getMat (m : List (List ℚ)) (i j : ℕ) : ℚ :=
  (m.getD i []).getD j 0

/-- Write entry (i, j) of a dense matrix. -/
def setMat (m : List (List ℚ)) (i j : ℕ) (v : ℚ) : List (List ℚ) :=
  m.set i ((m.getD i []).set j v)

/-- Add `v` to entry (i, j) of a dense matrix. -/
def addMat (m : List (List ℚ)) (i j : ℕ) (v : ℚ) : List (List ℚ) :=
  setMat m i j (getMat m i j + v)

/-- `MatrixSolver::clear` / `setupMatrices`: a zeroed `dim × dim` system,
marked set up. -/
def MSolve.clear (ms : MSolve) : MSolve :=
  { ms with
      g := List.replicate ms.dim (List.replicate ms.dim 0)
      rhs := List.replicate ms.dim 0
      isSetup := true }

/-- `MatrixSolver::setDimension` (MatrixSolver.cpp lines 21-33): rejects
dimensions below 1, otherwise resizes and zeroes. -/
def MSolve.setDimension (ms : MSolve) (d : ℕ) : MSolve :=
  if d < 1 then ms
  else MSolve.clear { ms with dim := d }

/-- `MatrixSolver::addConductance` (MatrixSolver.cpp lines 97-145).
External node index −1 denotes ground. -/
def MSolve.addConductance (ms : MSolve) (a b : ℤ) (cond : ℚ) : MSolve :=
  if ¬ms.isSetup ∨ cond < mEps then ms
  else if b = -1 then
    if 0 ≤ a ∧ a < (ms.dim : ℤ) then
      { ms with g := addMat ms.g a.toNat a.toNat cond }
    else ms
  else if 0 ≤ a ∧ a < (ms.dim : ℤ) ∧ 0 ≤ b ∧ b < (ms.dim : ℤ) then
    { ms with g :=
        addMat (addMat (addMat (addMat ms.g a.toNat a.toNat cond)
          b.toNat b.toNat cond) a.toNat b.toNat (-cond)) b.toNat a.toNat (-cond) }
  else ms

/-- `MatrixSolver::setNodeVoltage` (MatrixSolver.cpp lines 228-253):
identity row plus pinned right-hand side. -/
def MSolve.setNodeVoltage (ms : MSolve) (node : ℤ) (voltage : ℚ) : MSolve :=
  if ¬ms.isSetup ∨ node < 0 ∨ (ms.dim : ℤ) ≤ node then ms
  else
    { ms with
        g := ms.g.set node.toNat ((List.replicate ms.dim (0 : ℚ)).set node.toNat 1)
        rhs := ms.rhs.set node.toNat voltage }

/-- `MatrixSolver::addVoltageSource` (MatrixSolver.cpp lines 199-226). -/
def MSolve.addVoltageSource (ms : MSolve) (a b : ℤ) (voltage : ℚ) : MSolve :=
  if ¬ms.isSetup then ms
  else if b = -1 then
    if 0 ≤ a ∧ a < (ms.dim : ℤ) then ms.setNodeVoltage a voltage else ms
  else if 0 ≤ a ∧ a < (ms.dim : ℤ) ∧ 0 ≤ b ∧ b < (ms.dim : ℤ) then
    (ms.setNodeVoltage a voltage).setNodeVoltage b 0
  else ms

/-- `MatrixSolver::findPivotRow` (MatrixSolver.cpp lines 556-571): the row
at or below `start` whose entry in column `start` is strictly largest. -/
def findPivotRow (g : List (List ℚ)) (dim start : ℕ) : ℕ :=
  ((List.range dim).drop (start + 1)).foldl
    (fun pr r => if |getMat g r start| > |getMat g pr start| then r else pr) start

/-- One outer iteration of `MatrixSolver::gaussianElimination`
(MatrixSolver.cpp lines 479-526): pivot search, singularity check, row
swap, normalisation, elimination below. -/
def gaussStep (dim : ℕ) (st : List (List ℚ) × List ℚ) (i : ℕ) :
    Option (List (List ℚ) × List ℚ) :=
  let g := st.1
  let rhs := st.2
  let piv := findPivotRow g dim i
  if |getMat g piv i| < mEps then none
  else
    let g1 := if piv ≠ i then (g.set i (g.getD piv [])).set piv (g.getD i []) else g
    let r1 := if piv ≠ i then (rhs.set i (rhs.getD piv 0)).set piv (rhs.getD i 0) else rhs
    let pivot := getMat g1 i i
    let g2 := g1.set i ((g1.getD i []).mapIdx (fun j x => if i ≤ j then x / pivot else x))
    let r2 := r1.set i (r1.getD i 0 / pivot)
    some (((List.range dim).drop (i + 1)).foldl
      (fun st2 k =>
        let factor := getMat st2.1 k i
        if mEps < |factor| then
          (st2.1.set k ((st2.1.getD k []).mapIdx
              (fun j x => if i ≤ j then x - factor * getMat st2.1 i j else x)),
            st2.2.set k (st2.2.getD k 0 - factor * st2.2.getD i 0))
        else st2)
      (g2, r2))

/-- `MatrixSolver::gaussianElimination`: forward elimination over all
rows; `none` on a singular pivot. -/
def gaussianElimination (dim : ℕ) (g : List (List ℚ)) (rhs : List ℚ) :
    Option (List (List ℚ) × List ℚ) :=
  (List.range dim).foldl (fun acc i => acc.bind (fun st => gaussStep dim st i)) (some (g, rhs))

/-- `MatrixSolver::backSubstitution` (MatrixSolver.cpp lines 528-545). -/
def backSubstitution (dim : ℕ) (g : List (List ℚ)) (rhs : List ℚ) : List ℚ :=
  ((List.range dim).reverse).foldl
    (fun sol i =>
      sol.set i (((List.range dim).drop (i + 1)).foldl
        (fun v j => v - getMat g i j * sol.getD j 0) (rhs.getD i 0)))
    (List.replicate dim 0)

/-- `MatrixSolver::solve` (MatrixSolver.cpp lines 255-340), fallback
path: `none` when not set up, of dimension 0, or singular. -/
def MSolve.solve (ms : MSolve) : Option (List ℚ) :=
  if ¬ms.isSetup ∨ ms.dim = 0 then none
  else
    match gaussianElimination ms.dim ms.g ms.rhs with
    | none => none
    | some st => some (backSubstitution ms.dim st.1 st.2)

/-- `MatrixSolver::getNodeVoltage` (MatrixSolver.cpp lines 342-357):
0 for an out-of-range index. -/
def getSolvedVoltage (dim : ℕ) (sol : List ℚ) (node : ℤ) : ℚ :=
  if node < 0 ∨ (dim : ℤ) ≤ node then 0
  else sol.getD node.toNat 0

/-! ### Circuit simulator (src/src/simulation/CircuitSimulator.cpp) -/

/-- The `nextIndex` numbering loop of `CircuitSimulator::assignNodeIds`. -/
def numberFrom : ℕ → List ℕ → List (ℕ × ℕ)
  | _, [] => []
  | i, n :: rest => (n, i) :: numberFrom (i + 1) rest

/-- `CircuitSimulator::assignNodeIds` (CircuitSimulator.cpp lines
638-673): ground (when present) gets matrix index 0, the remaining nodes
indices 1, 2, … in list order. -/
def assignNodeIds (nodes : List ℕ) (ground? : Option ℕ) : List (ℕ × ℕ) :=
  match ground? with
  | some gn => (gn, 0) :: numberFrom 1 (nodes.filter (fun n => n ≠ gn))
  | none => numberFrom 0 nodes

/-- `m_nodeIndices.value(node, -1)`: look a node up in the index map. -/
def idxOf (m : List (ℕ × ℕ)) (n : ℕ) : ℤ :=
  match m.find? (fun p => p.1 = n) with
  | some p => (p.2 : ℤ)
  | none => -1

/-- The data of an `ElectricalComponent` that the stamping and write-back
passes read: `isPin`/`isOutput` model the `qobject_cast<ArduinoPin*>`
test and `ArduinoPin::isOutput`, `outputVoltage` is `pin->getVoltage()`
(the pin's `m_outputVoltage`), `resistance` is `getResistance()`, and
`(v, i)` the stored voltage/current pair. -/
structure SimComp where
  isPin : Bool
  isOutput : Bool
  outputVoltage : ℚ
  resistance : ℚ
  terminals : List (Option ℕ)
  v : ℚ
  i : ℚ
  deriving Repr, DecidableEq

/-- The per-component body of `CircuitSimulator::buildMatrices`
(CircuitSimulator.cpp lines 397-490). -/
def stampComp (idx : ℕ → ℤ) (ms : MSolve) (comp : SimComp) : MSolve :=
  let resistance := if comp.resistance ≤ 0 then 1 / 1000000 else comp.resistance
  let conductance := 1 / resistance
  if comp.terminals.length = 1 then
    match comp.terminals.getD 0 none with
    | none => ms
    | some nd =>
      let ni := idx nd
      if ni < 0 then ms
      else if comp.isPin ∧ comp.isOutput then
        if 1 / 100 < comp.outputVoltage then ms.addVoltageSource ni (-1) comp.outputVoltage
        else ms.addConductance ni (-1) conductance
      else ms.addConductance ni (-1) conductance
  else if comp.terminals.length = 2 then
    match comp.terminals.getD 0 none, comp.terminals.getD 1 none with
    | some n1, some n2 =>
      let i1 := idx n1
      let i2 := idx n2
      if i1 < 0 ∨ i2 < 0 then ms
      else ms.addConductance i1 i2 conductance
    | _, _ => ms
  else ms

/-- `CircuitSimulator::buildMatrices`: clear, then stamp every
component. -/
def buildMatrices (idx : ℕ → ℤ) (comps : List SimComp) (ms : MSolve) : MSolve :=
  comps.foldl (stampComp idx) ms.clear

/-- The per-component body of `CircuitSimulator::updateComponentStates`
(CircuitSimulator.cpp lines 512-567). -/
def updateComp (idx : ℕ → ℤ) (dim : ℕ) (sol : List ℚ) (comp : SimComp) : SimComp :=
  if comp.terminals.length = 1 then
    match comp.terminals.getD 0 none with
    | none => comp
    | some nd =>
      let ni := idx nd
      if ni < 0 then comp
      else
        let voltage := getSolvedVoltage dim sol ni
        { comp with v := voltage, i := voltage / comp.resistance }
  else if comp.terminals.length = 2 then
    match comp.terminals.getD 0 none, comp.terminals.getD 1 none with
    | some n1, some n2 =>
      let i1 := idx n1
      let i2 := idx n2
      if i1 < 0 ∨ i2 < 0 then comp
      else
        let voltage := getSolvedVoltage dim sol i1 - getSolvedVoltage dim sol i2
        { comp with v := voltage, i := voltage / comp.resistance }
    | _, _ => comp
  else comp

/-- `CircuitSimulator::updateComponentStates`. -/
def updateComponentStates (idx : ℕ → ℤ) (dim : ℕ) (sol : List ℚ)
    (comps : List SimComp) : List SimComp :=
  comps.map (updateComp idx dim sol)

/-- `m_prevValues`: previous (voltage, current) per component, keyed by
the component's position in the component list. -/
def lookupPrev (prev : List (ℕ × (ℚ × ℚ))) (k : ℕ) : Option (ℚ × ℚ) :=
  (prev.find? (fun e => e.1 = k)).map (fun e => e.2)

/-- `m_prevValues[comp] = pair`: QHash insert-or-replace. -/
def updPrev (prev : List (ℕ × (ℚ × ℚ))) (k : ℕ) (val : ℚ × ℚ) : List (ℕ × (ℚ × ℚ)) :=
  if (prev.find? (fun e => e.1 = k)).isSome then
    prev.map (fun e => if e.1 = k then (k, val) else e)
  else prev ++ [(k, val)]

/-- The component loop of `CircuitSimulator::hasConverged`
(CircuitSimulator.cpp lines 590-632): early false on a missing previous
entry or an out-of-tolerance difference, updating the table as it goes. -/
def hasConvergedAux (tol : ℚ) : List (ℕ × (ℚ × ℚ)) → List SimComp → ℕ →
    Bool × List (ℕ × (ℚ × ℚ))
  | prev, [], _ => (true, prev)
  | prev, comp :: rest, k =>
    match lookupPrev prev k with
    | none => (false, updPrev prev k (comp.v, comp.i))
    | some pv =>
      if |comp.v - pv.1| > tol ∨ |comp.i - pv.2| > tol then
        (false, updPrev prev k (comp.v, comp.i))
      else hasConvergedAux tol (updPrev prev k (comp.v, comp.i)) rest (k + 1)

/-- `CircuitSimulator::hasConverged` (CircuitSimulator.cpp lines 575-636):
an empty previous-values table is never converged. -/
def hasConverged (tol : ℚ) (prev : List (ℕ × (ℚ × ℚ))) (comps : List SimComp) :
    Bool × List (ℕ × (ℚ × ℚ)) :=
  if prev = [] then (false, prev)
  else hasConvergedAux tol prev comps 0

/-- The iteration loop of `CircuitSimulator::solve` (CircuitSimulator.cpp
lines 129-194).  Returns `none` when matrix building or solving fails
(`simulationError`), else `(converged, m_iterationCount, components,
last solution)`. -/
def solveLoop (idx : ℕ → ℤ) (tol : ℚ) :
    MSolve → List SimComp → List (ℕ × (ℚ × ℚ)) → ℕ → List ℚ → ℕ →
    Option (Bool × ℕ × List SimComp × List ℚ)
  | _, comps, _, iterCount, lastSol, 0 => some (false, iterCount, comps, lastSol)
  | ms, comps, prev, iterCount, _, fuel + 1 =>
    let ms1 := buildMatrices idx comps ms
    match ms1.solve with
    | none => none
    | some sol =>
      let comps1 := updateComponentStates idx ms1.dim sol comps
      let res := hasConverged tol prev comps1
      if res.1 then some (true, iterCount + 1, comps1, sol)
      else solveLoop idx tol ms1 comps1 res.2 (iterCount + 1) sol fuel

/-- `CircuitSimulator::initialize` followed by `solve`: index the nodes
(ground first), set the matrix dimension, seed `m_prevValues` with the
components' pre-solve values, then iterate up to `maxIter` times. -/
def runSolve (nodes : List ℕ) (ground? : Option ℕ) (comps : List SimComp)
    (maxIter : ℕ) (tol : ℚ) : Option (Bool × ℕ × List SimComp × List ℚ) :=
  let idxMap := assignNodeIds nodes ground?
  if idxMap.length = 0 then none
  else
    let ms := MSolve.setDimension ⟨0, [], [], false⟩ idxMap.length
    let prev := comps.mapIdx (fun k c => (k, (c.v, c.i)))
    solveLoop (fun n => idxOf idxMap n) tol ms comps prev 0 [] maxIter

/-- Claim C1's failing circuit: a single OUTPUT pin at 5 V whose one
terminal is bound to the ground node itself. -/
def outputPinOnGround : SimComp :=
  { isPin := true, isOutput := true, outputVoltage := 5, resistance := 25
    terminals := [some 0], v := 0, i := 0 }

/-- Claim C4's circuit: a 100 Ω resistor between ground and node 1 plus a
high-impedance INPUT pin on node 1; everything solves to 0. -/
def quiescentResistor : SimComp :=
  { isPin := false, isOutput := false, outputVoltage := 0, resistance := 100
    terminals := [some 0, some 1], v := 0, i := 0 }

/-- The INPUT pin of claim C4's circuit. -/
def quiescentInputPin : SimComp :=
  { isPin := true, isOutput := false, outputVoltage := 0, resistance := 1000000000
    terminals := [some 1], v := 0, i := 0 }

/-- A cleared 1×1 matrix for claim C8's witness. -/
def stampExampleMatrix : MSolve :=
  { dim := 1, g := [[0]], rhs := [0], isSetup := true }

/-- An OUTPUT pin at 5 V on node 0 for claim C8's witness. -/
def stampExamplePin : SimComp :=
  { isPin := true, isOutput := true, outputVoltage := 5, resistance := 25
    terminals := [some 0], v := 0, i := 0 }

/-! ### Update scheduler (CircuitSimulator.cpp lines 284-340)

Time is in integer milliseconds.  `lastUpdate` is the instant
`m_lastUpdateTime` was last restarted, `timerFire` the pending single-shot
`m_updateTimer` expiry (at most one deferred solve can ever be pending,
since the timer is single-shot), and `solveLog` records the start time of
every solve that ran.  The event loop delivers a due timer callback before
a later external trigger call is processed. -/

structure SchedState where
  isUpdating : Bool
  updatePending : Bool
  running : Bool
  lastUpdate : ℕ
  timerFire : Option ℕ
  solveLog : List ℕ
  deriving Repr, DecidableEq

/-- What `CircuitSimulator::triggerUpdate` did with a call. -/
inductive TrigAction where
  | droppedReentrant
  | scheduled (delay : ℕ)
  | droppedPending
  | solvedNow
  deriving Repr, DecidableEq

/-- `CircuitSimulator::doUpdate` (lines 318-340): clears the pending flag,
restarts the elapsed timer, and solves when running.  `m_isUpdating` is
true for the duration of the call and false again at its end. -/
def doUpdate (s : SchedState) (now : ℕ) : SchedState :=
  { s with
      updatePending := false
      lastUpdate := now
      solveLog := if s.running then s.solveLog ++ [now] else s.solveLog }

/-- `CircuitSimulator::triggerUpdate` (lines 284-316). -/
def triggerUpdate (m : ℕ) (s : SchedState) (now : ℕ) : SchedState × TrigAction :=
  if s.isUpdating then (s, TrigAction.droppedReentrant)
  else
    let elapsed := now - s.lastUpdate
    if elapsed < m then
      if s.updatePending = false then
        ({ s with
            updatePending := true
            timerFire := some (now + max 1 (m - elapsed)) },
          TrigAction.scheduled (max 1 (m - elapsed)))
      else (s, TrigAction.droppedPending)
    else (doUpdate s now, TrigAction.solvedNow)

/-- The event loop fires a due single-shot timer (which calls `doUpdate`
at its expiry instant) before handling a later event. -/
def deliverTimer (s : SchedState) (now : ℕ) : SchedState :=
  match s.timerFire with
  | some f => if f ≤ now then doUpdate { s with timerFire := none } f else s
  | none => s

/-- One external `trigger_update` call at time `now`, with due timer
callbacks delivered first. -/
def processTrigger (m : ℕ) (s : SchedState) (now : ℕ) : SchedState × TrigAction :=
  triggerUpdate m (deliverTimer s now) now

/-- A sequence of external `trigger_update` calls. -/
def runTriggers (m : ℕ) (s : SchedState) (ts : List ℕ) : SchedState :=
  ts.foldl (fun s1 t => (processTrigger m s1 t).1) s

/-- The scheduler invariant: not inside a solve; a set timer always fires
exactly `minInterval` after the last restart and implies a marked pending
update and vice versa; every logged solve started at or before the last
restart; and consecutive solve starts are at least `minInterval` apart. -/
def SchedInv (m : ℕ) (s : SchedState) : Prop :=
  s.isUpdating = false
  ∧ (∀ f, s.timerFire = some f → s.updatePending = true ∧ f = s.lastUpdate + m)
  ∧ (s.updatePending = true → s.timerFire ≠ none)
  ∧ (∀ u ∈ s.solveLog, u ≤ s.lastUpdate)
  ∧ s.solveLog.Pairwise (fun a b => a + m ≤ b)

/-- The idle scheduler right after construction, with the elapsed timer
started at time 0. -/
def idleSched : SchedState :=
  { isUpdating := false, updatePending := false, running := true
    lastUpdate := 0, timerFire := none, solveLog := [] }

/-! ### List helper lemmas -/

theorem getD_set_self {α : Type} {l : List α} {i : ℕ} (h : i < l.length) (a d : α) :
    (l.set i a).getD i d = a := by
  rw [List.getD_eq_getD_get?, List.get?_eq_getElem?, List.getElem?_set_eq_of_lt _ h]
  rfl

theorem getD_set_ne {α : Type} {l : List α} {i j : ℕ} (h : i ≠ j) (a d : α) :
    (l.set i a).getD j d = l.getD j d := by
  rw [List.getD_eq_getD_get?, List.getD_eq_getD_get?, List.get?_eq_getElem?,
    List.get?_eq_getElem?, List.getElem?_set_ne h]

theorem getD_some_lt_length {α : Type} {l : List (Option α)} {i : ℕ} {a : α}
    (h : l.getD i none = some a) : i < l.length := by
  by_contra hge
  rw [List.getD_eq_default _ _ (Nat.le_of_not_lt hge)] at h
  exact Option.noConfusion h

/-! ### Equation lemmas for the graph operations -/

/-- `connectToNode` with a valid terminal and an actual node: the terminal
entry is overwritten and the pair appended to that node's list. -/
theorem connectToNode_eq_some {s : CircuitState} {c t : ℕ} (n : ℕ)
    (h : t < (s.term c).length) :
    connectToNode s c (some n) t =
      { s with
          term := fun d => if d = c then (s.term c).set t (some n) else s.term d
          conn := fun m => if m = n then s.conn n ++ [(c, t)] else s.conn m } := by
  unfold connectToNode nodeAddComponent
  rw [if_pos h]

/-- `disconnectFromNode` on a bound terminal: every pair of `c` is removed
from the bound node's list, and the terminal entry is cleared. -/
theorem disconnectFromNode_eq {s : CircuitState} {c t n : ℕ}
    (h : getNode s c t = some n) :
    disconnectFromNode s c t =
      { s with
          conn := fun m => if m = n then (s.conn n).filter (fun p => p.1 ≠ c) else s.conn m
          term := fun d => if d = c then (s.term c).set t none else s.term d } := by
  unfold disconnectFromNode nodeRemoveComponent
  unfold getNode at h
  rw [h]

/-- `disconnectFromNode` on an unbound terminal is the identity. -/
theorem disconnectFromNode_eq_of_unbound {s : CircuitState} {c t : ℕ}
    (h : getNode s c t = none) :
    disconnectFromNode s c t = s := by
  unfold disconnectFromNode
  unfold getNode at h
  rw [h]

/-- `getNode` after `connectToNode` at the same position. -/
theorem getNode_connectToNode_self {s : CircuitState} {c t : ℕ} (n : ℕ)
    (h : t < (s.term c).length) :
    getNode (connectToNode s c (some n) t) c t = some n := by
  rw [connectToNode_eq_some n h]
  unfold getNode
  simp only [if_pos rfl]
  exact getD_set_self h _ _

/-- `getNode` after `connectToNode` at a different position. -/
theorem getNode_connectToNode_other {s : CircuitState} {c t : ℕ} {node : Option ℕ}
    {c' t' : ℕ} (h : ¬(c' = c ∧ t' = t)) :
    getNode (connectToNode s c node t) c' t' = getNode s c' t' := by
  unfold connectToNode
  by_cases hlen : t < (s.term c).length
  · rw [if_pos hlen]
    by_cases hc : c' = c
    · subst hc
      have ht : t ≠ t' := fun he => h ⟨rfl, he.symm⟩
      cases node with
      | some n => unfold nodeAddComponent getNode; simp only [if_pos rfl]; exact getD_set_ne ht _ _
      | none => unfold getNode; simp only [if_pos rfl]; exact getD_set_ne ht _ _
    · cases node with
      | some n => unfold nodeAddComponent getNode; simp only [if_neg hc]
      | none => unfold getNode; simp only [if_neg hc]
  · rw [if_neg hlen]

/-! ### The node-merging loop of connectComponents -/

/-- Behaviour of the merge loop of `Circuit::connectComponents` when the
loser's incidence list is duplicate-free and consistent (every listed pair
is actually bound to the loser `n2`): every listed pair is rebound onto the
survivor `n1`, all other terminal bindings are untouched, the survivor's
incidence list receives exactly the moved pairs, and the circuit's
componentry lists are untouched. -/
theorem mergeLoop_spec {n1 n2 : ℕ} (hne : n1 ≠ n2) :
    ∀ (pairs : List (ℕ × ℕ)) (s : CircuitState),
      (∀ p ∈ pairs, getNode s p.1 p.2 = some n2) →
      pairs.Nodup →
      (∀ p ∈ pairs, getNode (mergeLoop s pairs n1) p.1 p.2 = some n1)
      ∧ (∀ c t, (c, t) ∉ pairs → getNode (mergeLoop s pairs n1) c t = getNode s c t)
      ∧ (mergeLoop s pairs n1).conn n1 = s.conn n1 ++ pairs
      ∧ (mergeLoop s pairs n1).comps = s.comps
      ∧ (mergeLoop s pairs n1).nodesList = s.nodesList
      ∧ (mergeLoop s pairs n1).changedCount = s.changedCount := by
  intro pairs
  induction pairs with
  | nil =>
    intro s _ _
    refine ⟨by simp, fun c t _ => rfl, by simp [mergeLoop], rfl, rfl, rfl⟩
  | cons p rest ih =>
    intro s hpt hnodup
    have h0 : getNode s p.1 p.2 = some n2 := hpt p (List.mem_cons_self p rest)
    have tlt : p.2 < (s.term p.1).length := getD_some_lt_length h0
    have hsd := disconnectFromNode_eq h0
    have tlt' : p.2 < ((disconnectFromNode s p.1 p.2).term p.1).length := by
      rw [hsd]
      simpa using tlt
    have hs' := connectToNode_eq_some n1 tlt'
    have hstep : mergeLoop s (p :: rest) n1 =
        mergeLoop (connectToNode (disconnectFromNode s p.1 p.2) p.1 (some n1) p.2) rest n1 := by
      cases p with
      | mk a b => rfl
    have hA : getNode (connectToNode (disconnectFromNode s p.1 p.2) p.1 (some n1) p.2)
        p.1 p.2 = some n1 := getNode_connectToNode_self n1 tlt'
    have hB : ∀ c t, ¬(c = p.1 ∧ t = p.2) →
        getNode (connectToNode (disconnectFromNode s p.1 p.2) p.1 (some n1) p.2) c t
          = getNode s c t := by
      intro c t hct
      rw [getNode_connectToNode_other hct]
      rw [hsd]
      unfold getNode
      by_cases hc : c = p.1
      · subst hc
        have ht : t ≠ p.2 := fun he => hct ⟨rfl, he⟩
        simp only [if_pos rfl]
        exact getD_set_ne (Ne.symm ht) _ _
      · simp only [if_neg hc]
    have hC : (connectToNode (disconnectFromNode s p.1 p.2) p.1 (some n1) p.2).conn n1
        = s.conn n1 ++ [p] := by
      rw [hs', hsd]
      simp [hne]
    have hframe : (connectToNode (disconnectFromNode s p.1 p.2) p.1 (some n1) p.2).comps
          = s.comps
        ∧ (connectToNode (disconnectFromNode s p.1 p.2) p.1 (some n1) p.2).nodesList
          = s.nodesList
        ∧ (connectToNode (disconnectFromNode s p.1 p.2) p.1 (some n1) p.2).changedCount
          = s.changedCount := by
      rw [hs', hsd]
      exact ⟨rfl, rfl, rfl⟩
    have hpnotrest : p ∉ rest := (List.nodup_cons.mp hnodup).1
    have hpt' : ∀ q ∈ rest, getNode
        (connectToNode (disconnectFromNode s p.1 p.2) p.1 (some n1) p.2) q.1 q.2 = some n2 := by
      intro q hq
      have hqp : q ≠ p := fun he => hpnotrest (he ▸ hq)
      have : ¬(q.1 = p.1 ∧ q.2 = p.2) := by
        intro ⟨ha, hb⟩
        exact hqp (Prod.ext ha hb)
      rw [hB q.1 q.2 this]
      exact hpt q (List.mem_cons_of_mem p hq)
    obtain ⟨ia, ib, ic, id1, id2, id3⟩ :=
      ih (connectToNode (disconnectFromNode s p.1 p.2) p.1 (some n1) p.2) hpt'
        (List.nodup_cons.mp hnodup).2
    rw [hstep]
    refine ⟨?_, ?_, ?_, ?_, ?_, ?_⟩
    · intro q hq
      rcases List.mem_cons.mp hq with hq | hq
      · subst hq
        have : (q.1, q.2) ∉ rest := by
          intro hmem
          exact hpnotrest (by simpa using hmem)
        rw [ib q.1 q.2 this]
        exact hA
      · exact ia q hq
    · intro c t hct
      have h1 : (c, t) ∉ rest := fun hmem => hct (List.mem_cons_of_mem p hmem)
      have h2 : ¬(c = p.1 ∧ t = p.2) := by
        intro ⟨ha, hb⟩
        exact hct (by rw [List.mem_cons]; left; rw [Prod.ext_iff]; exact ⟨ha, hb⟩)
      rw [ib c t h1]
      exact hB c t h2
    · rw [ic, hC]
      simp
    · rw [id1, hframe.1]
    · rw [id2, hframe.2.1]
    · rw [id3, hframe.2.2]

/-- Claim C3: a successful `connect(a, ta, b, tb)` with valid terminal
indices leaves `a.node(ta) = b.node(tb)` bound to an actual node; when both
terminals were bound to distinct nodes, the first node survives, every
incidence of the losing node is rebound onto the survivor (and appears in
the survivor's incidence list), and the losing node is deleted from the
circuit's node list.  The hypothesis `hint` is the bidirectional-integrity
invariant of the spec, instantiated at the losing node. -/
theorem connectComponents_spec (s : CircuitState) (c1 c2 t1 t2 : ℕ)
    (ht1 : t1 < (s.term c1).length) (ht2 : t2 < (s.term c2).length)
    (hint : ∀ n1 n2, getNode s c1 t1 = some n1 → getNode s c2 t2 = some n2 → n1 ≠ n2 →
      (∀ p ∈ s.conn n2, getNode s p.1 p.2 = some n2) ∧ (s.conn n2).Nodup
        ∧ (c2, t2) ∈ s.conn n2) :
    (connectComponents s (some c1) (some c2) t1 t2).2 = true
    ∧ getNode (connectComponents s (some c1) (some c2) t1 t2).1 c1 t1
        = getNode (connectComponents s (some c1) (some c2) t1 t2).1 c2 t2
    ∧ (getNode (connectComponents s (some c1) (some c2) t1 t2).1 c1 t1).isSome = true
    ∧ (∀ n1 n2, getNode s c1 t1 = some n1 → getNode s c2 t2 = some n2 → n1 ≠ n2 →
        getNode (connectComponents s (some c1) (some c2) t1 t2).1 c1 t1 = some n1
        ∧ (∀ p ∈ s.conn n2,
            getNode (connectComponents s (some c1) (some c2) t1 t2).1 p.1 p.2 = some n1
            ∧ p ∈ (connectComponents s (some c1) (some c2) t1 t2).1.conn n1)
        ∧ (connectComponents s (some c1) (some c2) t1 t2).1.nodesList
            = s.nodesList.erase n2) := by
  have hred : connectComponents s (some c1) (some c2) t1 t2 =
      if t1 < (s.term c1).length ∧ t2 < (s.term c2).length then
        match getNode s c1 t1, getNode s c2 t2 with
        | some n1, some n2 =>
          if n1 = n2 then (s, true)
          else (removeNode (mergeLoop s (s.conn n2) n1) n2, true)
        | some n1, none => (connectToNode s c2 (some n1) t2, true)
        | none, some n2 => (connectToNode s c1 (some n2) t1, true)
        | none, none =>
          (connectToNode (connectToNode (createNode s).1 c1 (some (createNode s).2) t1)
            c2 (some (createNode s).2) t2, true)
      else (s, false) := rfl
  rw [hred, if_pos ⟨ht1, ht2⟩]
  cases hg1 : getNode s c1 t1 with
  | some n1 =>
    cases hg2 : getNode s c2 t2 with
    | some n2 =>
      by_cases heq : n1 = n2
      · subst heq
        simp only [eq_self_iff_true, if_true]
        refine ⟨trivial, ?_, ?_, ?_⟩
        · show getNode s c1 t1 = getNode s c2 t2
          rw [hg1, hg2]
        · show (getNode s c1 t1).isSome = true
          rw [hg1]; rfl
        · intro m1 m2 hm1 hm2 hmne
          injection hm1 with e1
          injection hm2 with e2
          subst e1
          subst e2
          exact absurd rfl hmne
      · simp only [if_neg heq]
        obtain ⟨hpt, hnodup, hmem⟩ := hint n1 n2 hg1 hg2 heq
        obtain ⟨ma, mb, mc, _, md2, _⟩ := mergeLoop_spec heq (s.conn n2) s hpt hnodup
        have hnotmem : (c1, t1) ∉ s.conn n2 := by
          intro hm
          have := hpt (c1, t1) hm
          rw [hg1] at this
          injection this with h
          exact heq h
        have g1 : getNode (mergeLoop s (s.conn n2) n1) c1 t1 = some n1 := by
          rw [mb c1 t1 hnotmem]; exact hg1
        have g2 : getNode (mergeLoop s (s.conn n2) n1) c2 t2 = some n1 := ma (c2, t2) hmem
        refine ⟨trivial, ?_, ?_, ?_⟩
        · show getNode (mergeLoop s (s.conn n2) n1) c1 t1
            = getNode (mergeLoop s (s.conn n2) n1) c2 t2
          rw [g1, g2]
        · show (getNode (mergeLoop s (s.conn n2) n1) c1 t1).isSome = true
          rw [g1]; rfl
        · intro m1 m2 hm1 hm2 _
          injection hm1 with e1
          injection hm2 with e2
          subst e1
          subst e2
          refine ⟨g1, fun p hp => ⟨ma p hp, ?_⟩, ?_⟩
          · show p ∈ (mergeLoop s (s.conn n2) n1).conn n1
            rw [mc]
            exact List.mem_append_right _ hp
          · show (removeNode (mergeLoop s (s.conn n2) n1) n2).nodesList = s.nodesList.erase n2
            unfold removeNode
            rw [md2]
    | none =>
      simp only
      have hset : getNode (connectToNode s c2 (some n1) t2) c2 t2 = some n1 :=
        getNode_connectToNode_self n1 ht2
      have hne12 : ¬(c1 = c2 ∧ t1 = t2) := by
        intro ⟨ha, hb⟩
        rw [ha, hb, hg2] at hg1
        exact Option.noConfusion hg1
      have hkeep : getNode (connectToNode s c2 (some n1) t2) c1 t1 = some n1 := by
        rw [getNode_connectToNode_other hne12]; exact hg1
      refine ⟨trivial, by rw [hset, hkeep], by rw [hkeep]; rfl, ?_⟩
      intro m1 m2 _ hm2 _
      exact Option.noConfusion hm2
  | none =>
    cases hg2 : getNode s c2 t2 with
    | some n2 =>
      simp only
      have hset : getNode (connectToNode s c1 (some n2) t1) c1 t1 = some n2 :=
        getNode_connectToNode_self n2 ht1
      have hne21 : ¬(c2 = c1 ∧ t2 = t1) := by
        intro ⟨ha, hb⟩
        rw [ha, hb, hg1] at hg2
        exact Option.noConfusion hg2
      have hkeep : getNode (connectToNode s c1 (some n2) t1) c2 t2 = some n2 := by
        rw [getNode_connectToNode_other hne21]; exact hg2
      refine ⟨trivial, by rw [hset, hkeep], by rw [hset]; rfl, ?_⟩
      intro m1 m2 hm1 _ _
      exact Option.noConfusion hm1
    | none =>
      simp only
      have hlen1 : t1 < (((createNode s).1).term c1).length := ht1
      have hset1 : getNode (connectToNode (createNode s).1 c1 (some s.nextNode) t1) c1 t1
          = some s.nextNode := getNode_connectToNode_self _ hlen1
      have hlen2 : t2 < ((connectToNode (createNode s).1 c1 (some s.nextNode) t1).term c2).length := by
        rw [connectToNode_eq_some _ hlen1]
        by_cases hc : c2 = c1
        · subst hc
          simpa using ht2
        · simpa [if_neg hc] using ht2
      have hset2 : getNode (connectToNode (connectToNode (createNode s).1 c1
          (some s.nextNode) t1) c2 (some s.nextNode) t2) c2 t2 = some s.nextNode :=
        getNode_connectToNode_self _ hlen2
      have hfst : getNode (connectToNode (connectToNode (createNode s).1 c1
          (some s.nextNode) t1) c2 (some s.nextNode) t2) c1 t1 = some s.nextNode := by
        by_cases hpos : c1 = c2 ∧ t1 = t2
        · obtain ⟨ha, hb⟩ := hpos
          subst ha
          subst hb
          exact hset2
        · have : ¬(c1 = c2 ∧ t1 = t2) := hpos
          rw [getNode_connectToNode_other this]
          exact hset1
      refine ⟨trivial, ?_, ?_, ?_⟩
      · show getNode (connectToNode (connectToNode (createNode s).1 c1
            (some s.nextNode) t1) c2 (some s.nextNode) t2) c1 t1
          = getNode (connectToNode (connectToNode (createNode s).1 c1
            (some s.nextNode) t1) c2 (some s.nextNode) t2) c2 t2
        rw [hset2, hfst]
      · show (getNode (connectToNode (connectToNode (createNode s).1 c1
            (some s.nextNode) t1) c2 (some s.nextNode) t2) c1 t1).isSome = true
        rw [hfst]; rfl
      · intro m1 m2 hm1 _ _
        exact Option.noConfusion hm1

/-- Closed instance of `connectComponents_spec`: in the concrete merge
scenario, the call succeeds, node 1 survives holding both incidences, and
node 2 is gone from the node list. -/
theorem connectComponents_spec_witness :
    (connectComponents mergeExampleBefore (some 0) (some 1) 0 0).2 = true
    ∧ getNode (connectComponents mergeExampleBefore (some 0) (some 1) 0 0).1 0 0 = some 1
    ∧ getNode (connectComponents mergeExampleBefore (some 0) (some 1) 0 0).1 1 0 = some 1
    ∧ (connectComponents mergeExampleBefore (some 0) (some 1) 0 0).1.nodesList = [0, 1] := by
  have e1 : getNode mergeExampleBefore 0 0 = some 1 := by rfl
  have e2 : getNode mergeExampleBefore 1 0 = some 2 := by rfl
  have h := connectComponents_spec mergeExampleBefore 0 1 0 0 (by decide) (by decide) ?hint
  case hint =>
    intro n1 n2 h1 h2 _
    rw [e1] at h1
    rw [e2] at h2
    injection h1 with h1
    injection h2 with h2
    subst h1
    subst h2
    refine ⟨?_, by decide, by decide⟩
    intro p hp
    have : p = (1, 0) := by
      have hc : mergeExampleBefore.conn 2 = [(1, 0)] := by rfl
      rw [hc] at hp
      simpa using hp
    rw [this]
    exact e2
  obtain ⟨hs, _, _, hmerge⟩ := h
  obtain ⟨g1, gpairs, gnodes⟩ := hmerge 1 2 e1 e2 (by decide)
  have hp10 : (1, 0) ∈ mergeExampleBefore.conn 2 := by decide
  refine ⟨hs, g1, (gpairs (1, 0) hp10).1, ?_⟩
  rw [gnodes]
  rfl

/-- Claim C2 (code bug, failing input): reconnecting component 0's
terminal 0 from node 1 to node 2 leaves the stale pair (0, 0) in node 1's
incidence list — node 1's list references a component whose terminal table
no longer points at node 1 — and node 1 is neither emptied nor pruned, so
bidirectional integrity is violated in a reachable state. -/
theorem connectToNode_rebind_stale :
    getNode rebindExample 0 0 = some 2
    ∧ (0, 0) ∈ rebindExample.conn 1
    ∧ rebindExample.conn 2 = [(0, 0)]
    ∧ 1 ∈ rebindExample.nodesList := by
  decide

/-- Filtering twice with the same predicate filters once. -/
theorem filter_idem {α : Type} (p : α → Bool) (l : List α) :
    (l.filter p).filter p = l.filter p :=
  List.filter_eq_self.mpr (fun _ hx => (List.mem_filter.mp hx).2)

/-- Behaviour of the terminal loop of the one-argument
`Circuit::disconnectComponent`: after processing terminals `0..k-1`, those
terminals are unbound, the incidence lists of every node some processed
terminal pointed at have lost all of `c`'s pairs, and nothing else
changed. -/
theorem disconnectLoop_spec (c : ℕ) (s : CircuitState) :
    ∀ k : ℕ,
      (∀ t, t < k → getNode (disconnectLoop c s k) c t = none)
      ∧ (∀ t, k ≤ t → getNode (disconnectLoop c s k) c t = getNode s c t)
      ∧ (∀ c', c' ≠ c → (disconnectLoop c s k).term c' = s.term c')
      ∧ (∀ n, (∃ t, t < k ∧ getNode s c t = some n) →
          (disconnectLoop c s k).conn n = (s.conn n).filter (fun p => p.1 ≠ c))
      ∧ (∀ n, (¬∃ t, t < k ∧ getNode s c t = some n) →
          (disconnectLoop c s k).conn n = s.conn n)
      ∧ (disconnectLoop c s k).comps = s.comps
      ∧ (disconnectLoop c s k).nodesList = s.nodesList
      ∧ (disconnectLoop c s k).external = s.external
      ∧ (disconnectLoop c s k).changedCount = s.changedCount := by
  intro k
  induction k with
  | zero =>
    refine ⟨fun t ht => absurd ht (Nat.not_lt_zero t), fun t _ => rfl, fun c' _ => rfl,
      fun n hn => ?_, fun n _ => rfl, rfl, rfl, rfl, rfl⟩
    obtain ⟨t, ht, _⟩ := hn
    exact absurd ht (Nat.not_lt_zero t)
  | succ k ih =>
    obtain ⟨i1, i2, i3, i4, i5, i6, i7, i8, i9⟩ := ih
    have hk : getNode (disconnectLoop c s k) c k = getNode s c k := i2 k (Nat.le_refl k)
    cases hgk : getNode s c k with
    | none =>
      have hstep : disconnectLoop c s (k + 1) = disconnectLoop c s k := by
        unfold disconnectLoop
        rw [List.range_succ, List.foldl_append]
        show (match getNode (disconnectLoop c s k) c k with
          | some _ => disconnectFromNode (disconnectLoop c s k) c k
          | none => disconnectLoop c s k) = disconnectLoop c s k
        rw [hk, hgk]
      rw [hstep]
      refine ⟨?_, ?_, i3, ?_, ?_, i6, i7, i8, i9⟩
      · intro t ht
        rcases Nat.lt_succ_iff_lt_or_eq.mp ht with h | h
        · exact i1 t h
        · subst h
          rw [hk, hgk]
      · intro t ht
        exact i2 t (Nat.le_of_succ_le ht)
      · intro n hn
        obtain ⟨t, ht, hgt⟩ := hn
        rcases Nat.lt_succ_iff_lt_or_eq.mp ht with h | h
        · exact i4 n ⟨t, h, hgt⟩
        · subst h
          rw [hgk] at hgt
          exact Option.noConfusion hgt
      · intro n hn
        refine i5 n ?_
        intro ⟨t, ht, hgt⟩
        exact hn ⟨t, Nat.lt_succ_of_lt ht, hgt⟩
    | some n0 =>
      have hbound : getNode (disconnectLoop c s k) c k = some n0 := by rw [hk, hgk]
      have hstep : disconnectLoop c s (k + 1)
          = disconnectFromNode (disconnectLoop c s k) c k := by
        unfold disconnectLoop
        rw [List.range_succ, List.foldl_append]
        show (match getNode (disconnectLoop c s k) c k with
          | some _ => disconnectFromNode (disconnectLoop c s k) c k
          | none => disconnectLoop c s k)
          = disconnectFromNode (disconnectLoop c s k) c k
        rw [hbound]
      have hd := disconnectFromNode_eq hbound
      rw [hstep, hd]
      have hklen : k < ((disconnectLoop c s k).term c).length := getD_some_lt_length hbound
      refine ⟨?_, ?_, ?_, ?_, ?_, i6, i7, i8, i9⟩
      · intro t ht
        unfold getNode
        simp only [eq_self_iff_true, if_true]
        rcases Nat.lt_succ_iff_lt_or_eq.mp ht with h | h
        · rw [getD_set_ne (Nat.ne_of_gt h) _ _]
          exact i1 t h
        · subst h
          exact getD_set_self hklen _ _
      · intro t ht
        unfold getNode
        simp only [eq_self_iff_true, if_true]
        rw [getD_set_ne (Nat.ne_of_lt ht) _ _]
        exact i2 t (Nat.le_of_succ_le ht)
      · intro c' hc'
        simp only [if_neg hc']
        exact i3 c' hc'
      · intro n hn
        by_cases hnn : n = n0
        · subst hnn
          simp only [eq_self_iff_true, if_true]
          by_cases hprev : ∃ t, t < k ∧ getNode s c t = some n
          · rw [i4 n hprev, filter_idem]
          · rw [i5 n hprev]
        · simp only [if_neg hnn]
          obtain ⟨t, ht, hgt⟩ := hn
          rcases Nat.lt_succ_iff_lt_or_eq.mp ht with h | h
          · exact i4 n ⟨t, h, hgt⟩
          · subst h
            rw [hgk] at hgt
            injection hgt with e
            exact absurd e.symm hnn
      · intro n hn
        have hnn : n ≠ n0 := by
          intro he
          exact hn ⟨k, Nat.lt_succ_self k, by rw [hgk, he]⟩
        simp only [if_neg hnn]
        refine i5 n ?_
        intro ⟨t, ht, hgt⟩
        exact hn ⟨t, Nat.lt_succ_of_lt ht, hgt⟩

/-- `connectToNode` never touches the component list, the node list, the
external set or the emission count. -/
theorem connectToNode_frame (s : CircuitState) (c : ℕ) (node : Option ℕ) (t : ℕ) :
    (connectToNode s c node t).comps = s.comps
    ∧ (connectToNode s c node t).nodesList = s.nodesList
    ∧ (connectToNode s c node t).external = s.external
    ∧ (connectToNode s c node t).changedCount = s.changedCount := by
  unfold connectToNode
  by_cases h : t < (s.term c).length
  · rw [if_pos h]
    cases node with
    | some n => exact ⟨rfl, rfl, rfl, rfl⟩
    | none => exact ⟨rfl, rfl, rfl, rfl⟩
  · rw [if_neg h]
    exact ⟨rfl, rfl, rfl, rfl⟩

/-- `disconnectFromNode` never touches the component list, the node list,
the external set or the emission count. -/
theorem disconnectFromNode_frame (s : CircuitState) (c t : ℕ) :
    (disconnectFromNode s c t).comps = s.comps
    ∧ (disconnectFromNode s c t).nodesList = s.nodesList
    ∧ (disconnectFromNode s c t).external = s.external
    ∧ (disconnectFromNode s c t).changedCount = s.changedCount := by
  unfold disconnectFromNode
  cases h : (s.term c).getD t none with
  | some n => exact ⟨rfl, rfl, rfl, rfl⟩
  | none => exact ⟨rfl, rfl, rfl, rfl⟩

/-- The merge loop never touches the emission count. -/
theorem mergeLoop_changedCount (n1 : ℕ) (pairs : List (ℕ × ℕ)) :
    ∀ s : CircuitState, (mergeLoop s pairs n1).changedCount = s.changedCount := by
  induction pairs with
  | nil => intro s; rfl
  | cons p rest ih =>
    intro s
    have hstep : mergeLoop s (p :: rest) n1 =
        mergeLoop (connectToNode (disconnectFromNode s p.1 p.2) p.1 (some n1) p.2) rest n1 := by
      cases p with
      | mk a b => rfl
    rw [hstep, ih]
    rw [(connectToNode_frame _ _ _ _).2.2.2, (disconnectFromNode_frame _ _ _).2.2.2]

/-- Claim C6 (amended): `removeComponentSafely` on a component of the
circuit unbinds all its terminals, removes its pairs from every node's
incidence list (given the integrity hypothesis `hint` for `c`), removes it
from the component list, emits exactly one `circuitChanged`, deletes the
object iff it is not externally owned — and leaves the node list exactly
as it was: nodes emptied by the removal are not pruned. -/
theorem removeComponentSafely_spec (s : CircuitState) (c : ℕ)
    (hin : c ∈ s.comps)
    (hint : ∀ n t, (c, t) ∈ s.conn n → getNode s c t = some n) :
    (∀ t, getNode (removeComponentSafely s (some c)).1 c t = none)
    ∧ (∀ n t, (c, t) ∉ (removeComponentSafely s (some c)).1.conn n)
    ∧ (removeComponentSafely s (some c)).1.comps = s.comps.erase c
    ∧ (removeComponentSafely s (some c)).1.nodesList = s.nodesList
    ∧ (removeComponentSafely s (some c)).1.changedCount = s.changedCount + 1
    ∧ ((removeComponentSafely s (some c)).2 = true ↔ c ∉ s.external) := by
  obtain ⟨l1, l2, _, l4, l5, l6, l7, l8, l9⟩ := disconnectLoop_spec c s (s.term c).length
  have hin1 : c ∈ (disconnectComponentAll s c).comps := by
    show c ∈ (disconnectLoop c s (s.term c).length).comps
    rw [l6]
    exact hin
  have hred : removeComponentSafely s (some c) =
      if c ∈ (disconnectComponentAll s c).external then
        ({ disconnectComponentAll s c with
            comps := (disconnectComponentAll s c).comps.erase c
            external := (disconnectComponentAll s c).external.erase c
            changedCount := (disconnectComponentAll s c).changedCount + 1 }, false)
      else
        ({ disconnectComponentAll s c with
            comps := (disconnectComponentAll s c).comps.erase c
            changedCount := (disconnectComponentAll s c).changedCount + 1 }, true) := by
    show (if c ∈ (disconnectComponentAll s c).comps then
        if c ∈ (disconnectComponentAll s c).external then
          ({ disconnectComponentAll s c with
              comps := (disconnectComponentAll s c).comps.erase c
              external := (disconnectComponentAll s c).external.erase c
              changedCount := (disconnectComponentAll s c).changedCount + 1 }, false)
        else
          ({ disconnectComponentAll s c with
              comps := (disconnectComponentAll s c).comps.erase c
              changedCount := (disconnectComponentAll s c).changedCount + 1 }, true)
      else (disconnectComponentAll s c, false)) = _
    rw [if_pos hin1]
  have hterm : ∀ t, getNode (disconnectComponentAll s c) c t = none := by
    intro t
    by_cases ht : t < (s.term c).length
    · exact l1 t ht
    · have := l2 t (Nat.le_of_not_lt ht)
      show getNode (disconnectLoop c s (s.term c).length) c t = none
      rw [this]
      unfold getNode
      exact List.getD_eq_default _ _ (Nat.le_of_not_lt ht)
  have hconn : ∀ n t, (c, t) ∉ (disconnectComponentAll s c).conn n := by
    intro n t hmem
    by_cases hex : ∃ t0, t0 < (s.term c).length ∧ getNode s c t0 = some n
    · have := l4 n hex
      show False
      rw [show (disconnectComponentAll s c).conn n
          = (disconnectLoop c s (s.term c).length).conn n from rfl, this] at hmem
      have := (List.mem_filter.mp hmem).2
      simp at this
    · have := l5 n hex
      rw [show (disconnectComponentAll s c).conn n
          = (disconnectLoop c s (s.term c).length).conn n from rfl, this] at hmem
      have hg := hint n t hmem
      exact hex ⟨t, getD_some_lt_length hg, hg⟩
  rw [hred]
  by_cases hext : c ∈ (disconnectComponentAll s c).external
  · rw [if_pos hext]
    have hext' : c ∈ s.external := by
      rw [show (disconnectComponentAll s c).external
        = (disconnectLoop c s (s.term c).length).external from rfl, l8] at hext
      exact hext
    refine ⟨hterm, hconn, ?_, l7, ?_, ?_⟩
    · show (disconnectComponentAll s c).comps.erase c = s.comps.erase c
      rw [show (disconnectComponentAll s c).comps
        = (disconnectLoop c s (s.term c).length).comps from rfl, l6]
    · show (disconnectComponentAll s c).changedCount + 1 = s.changedCount + 1
      rw [show (disconnectComponentAll s c).changedCount
        = (disconnectLoop c s (s.term c).length).changedCount from rfl, l9]
    · simp [hext']
  · rw [if_neg hext]
    have hext' : c ∉ s.external := by
      rw [show (disconnectComponentAll s c).external
        = (disconnectLoop c s (s.term c).length).external from rfl, l8] at hext
      exact hext
    refine ⟨hterm, hconn, ?_, l7, ?_, ?_⟩
    · show (disconnectComponentAll s c).comps.erase c = s.comps.erase c
      rw [show (disconnectComponentAll s c).comps
        = (disconnectLoop c s (s.term c).length).comps from rfl, l6]
    · show (disconnectComponentAll s c).changedCount + 1 = s.changedCount + 1
      rw [show (disconnectComponentAll s c).changedCount
        = (disconnectLoop c s (s.term c).length).changedCount from rfl, l9]
    · simp [hext']

/-- Claim C6 (counterexample to the claim as stated): removing component 0,
the only incidence of non-ground node 1, completes — the component list is
emptied, `circuitChanged` is emitted, the object is deleted — yet node 1
remains in the node list with an empty incidence list: empty non-ground
nodes are not pruned. -/
theorem removeComponentSafely_not_pruned :
    removeExample.1.nodesList = [0, 1]
    ∧ removeExample.1.conn 1 = []
    ∧ removeExample.1.ground = 0
    ∧ removeExample.1.comps = []
    ∧ removeExample.2 = true := by
  decide

/-- Helper for the claim C6 witness: the incidence lists of the concrete
pre-removal state. -/
theorem removeExampleBefore_conn (n : ℕ) :
    removeExampleBefore.conn n = if n = 1 then [(0, 0)] else [] := by
  by_cases hn : n = 1
  · subst hn
    rfl
  · simp [removeExampleBefore, connectComponentToNode, connectToNode, addComponent,
      createNode, emptyCircuit, nodeAddComponent, oneCompTable, hn]

/-- Closed instance of `removeComponentSafely_spec` at the concrete
removal scenario. -/
theorem removeComponentSafely_spec_witness :
    (removeComponentSafely removeExampleBefore (some 0)).1.changedCount
        = removeExampleBefore.changedCount + 1
    ∧ (0, 0) ∉ (removeComponentSafely removeExampleBefore (some 0)).1.conn 1
    ∧ (removeComponentSafely removeExampleBefore (some 0)).1.nodesList
        = removeExampleBefore.nodesList := by
  have hint : ∀ n t, (0, t) ∈ removeExampleBefore.conn n →
      getNode removeExampleBefore 0 t = some n := by
    intro n t hmem
    rw [removeExampleBefore_conn n] at hmem
    by_cases hn : n = 1
    · subst hn
      rw [if_pos rfl] at hmem
      have : t = 0 := by
        have := List.mem_singleton.mp hmem
        exact congrArg Prod.snd this
      subst this
      rfl
    · rw [if_neg hn] at hmem
      exact absurd hmem (List.not_mem_nil _)
  have h := removeComponentSafely_spec removeExampleBefore 0 (by decide) hint
  exact ⟨h.2.2.2.2.1, h.2.1 1 0, h.2.2.2.1⟩

/-- Claim C7 (counterexample to the claim as stated): a successful
`connectComponents` call mutates the graph — component 0's terminal 0
becomes bound — but does not emit `circuitChanged`: the emission count is
unchanged. -/
theorem connectComponents_no_emission :
    connectEmitExample.2 = true
    ∧ connectEmitExample.1.changedCount = connectEmitExampleBefore.changedCount
    ∧ getNode connectEmitExample.1 0 0 = some 1
    ∧ getNode connectEmitExampleBefore 0 0 = none := by
  decide

/-- Claim C7 (amended): `addComponent` and `removeComponentSafely` emit
`circuitChanged` exactly once on success; `connectComponents` and
`connectComponentToNode` validate their arguments before mutating anything
and return false without mutation on a null component or an out-of-range
terminal — but on success they mutate without emitting `circuitChanged`. -/
theorem mutation_emission_spec (s : CircuitState) :
    (∀ b, addComponent s none b = s)
    ∧ (∀ c b, c ∉ s.comps →
        (addComponent s (some c) b).changedCount = s.changedCount + 1
        ∧ (addComponent s (some c) b).comps = s.comps ++ [c])
    ∧ (∀ c b, c ∈ s.comps → addComponent s (some c) b = s)
    ∧ (∀ c2? t1 t2, connectComponents s none c2? t1 t2 = (s, false))
    ∧ (∀ c1 t1 t2, connectComponents s (some c1) none t1 t2 = (s, false))
    ∧ (∀ c1 c2 t1 t2, ¬(t1 < (s.term c1).length ∧ t2 < (s.term c2).length) →
        connectComponents s (some c1) (some c2) t1 t2 = (s, false))
    ∧ (∀ c1 c2 t1 t2, t1 < (s.term c1).length → t2 < (s.term c2).length →
        (connectComponents s (some c1) (some c2) t1 t2).2 = true
        ∧ (connectComponents s (some c1) (some c2) t1 t2).1.changedCount = s.changedCount)
    ∧ (∀ t n?, connectComponentToNode s none t n? = (s, false))
    ∧ (∀ c t, connectComponentToNode s (some c) t none = (s, false))
    ∧ (∀ c t n, ¬t < (s.term c).length →
        connectComponentToNode s (some c) t (some n) = (s, false))
    ∧ (∀ c t n, t < (s.term c).length →
        (connectComponentToNode s (some c) t (some n)).2 = true
        ∧ (connectComponentToNode s (some c) t (some n)).1.changedCount = s.changedCount)
    ∧ removeComponentSafely s none = (s, false)
    ∧ (∀ c, c ∈ s.comps →
        (removeComponentSafely s (some c)).1.changedCount = s.changedCount + 1) := by
  refine ⟨fun b => rfl, ?_, ?_, ?_, ?_, ?_, ?_, fun t n? => rfl, fun c t => rfl, ?_, ?_,
    rfl, ?_⟩
  · intro c b hc
    have ha : addComponent s (some c) b =
        (if c ∈ s.comps then s
         else
           let s1 := if b = true ∧ c ∉ s.external then
             { s with external := s.external ++ [c] } else s
           { s1 with comps := s1.comps ++ [c], changedCount := s1.changedCount + 1 }) := rfl
    rw [ha, if_neg hc]
    show (if b = true ∧ c ∉ s.external then
          { s with external := s.external ++ [c] } else s).changedCount + 1
        = s.changedCount + 1
      ∧ (if b = true ∧ c ∉ s.external then
          { s with external := s.external ++ [c] } else s).comps ++ [c]
        = s.comps ++ [c]
    by_cases hb : (b = true ∧ c ∉ s.external)
    · rw [if_pos hb]
      exact ⟨rfl, rfl⟩
    · rw [if_neg hb]
      exact ⟨rfl, rfl⟩
  · intro c b hc
    have ha : addComponent s (some c) b =
        (if c ∈ s.comps then s
         else
           let s1 := if b = true ∧ c ∉ s.external then
             { s with external := s.external ++ [c] } else s
           { s1 with comps := s1.comps ++ [c], changedCount := s1.changedCount + 1 }) := rfl
    rw [ha, if_pos hc]
  · intro c2? t1 t2
    cases c2? <;> rfl
  · intro c1 t1 t2
    rfl
  · intro c1 c2 t1 t2 h
    show (if t1 < (s.term c1).length ∧ t2 < (s.term c2).length then _ else (s, false)) = _
    rw [if_neg h]
  · intro c1 c2 t1 t2 ht1 ht2
    have hred : connectComponents s (some c1) (some c2) t1 t2 =
        if t1 < (s.term c1).length ∧ t2 < (s.term c2).length then
          match getNode s c1 t1, getNode s c2 t2 with
          | some n1, some n2 =>
            if n1 = n2 then (s, true)
            else (removeNode (mergeLoop s (s.conn n2) n1) n2, true)
          | some n1, none => (connectToNode s c2 (some n1) t2, true)
          | none, some n2 => (connectToNode s c1 (some n2) t1, true)
          | none, none =>
            (connectToNode (connectToNode (createNode s).1 c1 (some (createNode s).2) t1)
              c2 (some (createNode s).2) t2, true)
        else (s, false) := rfl
    rw [hred, if_pos ⟨ht1, ht2⟩]
    cases hg1 : getNode s c1 t1 with
    | some n1 =>
      cases hg2 : getNode s c2 t2 with
      | some n2 =>
        by_cases heq : n1 = n2
        · subst heq
          simp only [eq_self_iff_true, if_true]
          exact ⟨trivial, trivial⟩
        · simp only [if_neg heq]
          refine ⟨trivial, ?_⟩
          show (mergeLoop s (s.conn n2) n1).changedCount = s.changedCount
          exact mergeLoop_changedCount n1 (s.conn n2) s
      | none =>
        exact ⟨rfl, (connectToNode_frame s c2 (some n1) t2).2.2.2⟩
    | none =>
      cases hg2 : getNode s c2 t2 with
      | some n2 =>
        exact ⟨rfl, (connectToNode_frame s c1 (some n2) t1).2.2.2⟩
      | none =>
        refine ⟨rfl, ?_⟩
        rw [(connectToNode_frame _ c2 (some (createNode s).2) t2).2.2.2,
          (connectToNode_frame _ c1 (some (createNode s).2) t1).2.2.2]
        rfl
  · intro c t n h
    show (if t < (s.term c).length then (connectToNode s c (some n) t, true)
      else (s, false)) = _
    rw [if_neg h]
  · intro c t n h
    have hred : connectComponentToNode s (some c) t (some n)
        = (connectToNode s c (some n) t, true) := by
      show (if t < (s.term c).length then (connectToNode s c (some n) t, true)
        else (s, false)) = _
      rw [if_pos h]
    rw [hred]
    exact ⟨rfl, (connectToNode_frame s c (some n) t).2.2.2⟩
  · intro c hc
    obtain ⟨_, _, _, _, _, l6, _, _, l9⟩ := disconnectLoop_spec c s (s.term c).length
    have hin1 : c ∈ (disconnectComponentAll s c).comps := by
      show c ∈ (disconnectLoop c s (s.term c).length).comps
      rw [l6]
      exact hc
    have hred : removeComponentSafely s (some c) =
        if c ∈ (disconnectComponentAll s c).external then
          ({ disconnectComponentAll s c with
              comps := (disconnectComponentAll s c).comps.erase c
              external := (disconnectComponentAll s c).external.erase c
              changedCount := (disconnectComponentAll s c).changedCount + 1 }, false)
        else
          ({ disconnectComponentAll s c with
              comps := (disconnectComponentAll s c).comps.erase c
              changedCount := (disconnectComponentAll s c).changedCount + 1 }, true) := by
      show (if c ∈ (disconnectComponentAll s c).comps then
          if c ∈ (disconnectComponentAll s c).external then
            ({ disconnectComponentAll s c with
                comps := (disconnectComponentAll s c).comps.erase c
                external := (disconnectComponentAll s c).external.erase c
                changedCount := (disconnectComponentAll s c).changedCount + 1 }, false)
          else
            ({ disconnectComponentAll s c with
                comps := (disconnectComponentAll s c).comps.erase c
                changedCount := (disconnectComponentAll s c).changedCount + 1 }, true)
        else (disconnectComponentAll s c, false)) = _
      rw [if_pos hin1]
    rw [hred]
    by_cases hext : c ∈ (disconnectComponentAll s c).external
    · rw [if_pos hext]
      show (disconnectComponentAll s c).changedCount + 1 = s.changedCount + 1
      rw [show (disconnectComponentAll s c).changedCount
        = (disconnectLoop c s (s.term c).length).changedCount from rfl, l9]
    · rw [if_neg hext]
      show (disconnectComponentAll s c).changedCount + 1 = s.changedCount + 1
      rw [show (disconnectComponentAll s c).changedCount
        = (disconnectLoop c s (s.term c).length).changedCount from rfl, l9]

/-- Closed instance of `mutation_emission_spec` at the concrete two-resistor
circuit: a valid connect succeeds and leaves the emission count unchanged. -/
theorem mutation_emission_spec_witness :
    (connectComponents connectEmitExampleBefore (some 0) (some 1) 0 0).2 = true
    ∧ (connectComponents connectEmitExampleBefore (some 0) (some 1) 0 0).1.changedCount
        = connectEmitExampleBefore.changedCount := by
  exact (mutation_emission_spec connectEmitExampleBefore).2.2.2.2.2.2.1 0 1 0 0
    (by decide) (by decide)

/-! ### Node indexing and the solved ground voltage -/

/-- Every entry produced by the `nextIndex` numbering loop carries an
index at least the starting value. -/
theorem numberFrom_ge (i : ℕ) (l : List ℕ) : ∀ x ∈ numberFrom i l, i ≤ x.2 := by
  induction l generalizing i with
  | nil => intro x hx; exact absurd hx (List.not_mem_nil x)
  | cons n rest ih =>
    intro x hx
    rcases List.mem_cons.mp hx with h | h
    · subst h
      exact Nat.le_refl i
    · exact Nat.le_of_succ_le (ih (i + 1) x h)

/-- Claim C1 (amended, indexing part): `assignNodeIds` gives the
designated ground node matrix index 0, and every other node either has no
index (−1) or an index at least 1. -/
theorem assignNodeIds_ground_index_zero (nodes : List ℕ) (gn : ℕ) :
    idxOf (assignNodeIds nodes (some gn)) gn = 0
    ∧ ∀ n, n ≠ gn →
        idxOf (assignNodeIds nodes (some gn)) n = -1
        ∨ 1 ≤ idxOf (assignNodeIds nodes (some gn)) n := by
  constructor
  · unfold idxOf assignNodeIds
    rw [List.find?_cons_of_pos _ (by simp)]
    rfl
  · intro n hn
    unfold idxOf assignNodeIds
    rw [List.find?_cons_of_neg _ (by simp [Ne.symm hn])]
    cases hf : (numberFrom 1 (nodes.filter (fun m => m ≠ gn))).find? (fun p => p.1 = n) with
    | none => exact Or.inl rfl
    | some x =>
      right
      have hmem : x ∈ numberFrom 1 (nodes.filter (fun m => m ≠ gn)) :=
        List.mem_of_find?_eq_some hf
      have h1 := numberFrom_ge 1 _ x hmem
      show (1 : ℤ) ≤ (x.2 : ℤ)
      exact_mod_cast h1

/-- Closed instance of `assignNodeIds_ground_index_zero` on a two-node
circuit. -/
theorem assignNodeIds_ground_index_zero_witness :
    idxOf (assignNodeIds [0, 1] (some 0)) 0 = 0
    ∧ (idxOf (assignNodeIds [0, 1] (some 0)) 1 = -1
        ∨ 1 ≤ idxOf (assignNodeIds [0, 1] (some 0)) 1) :=
  ⟨(assignNodeIds_ground_index_zero [0, 1] 0).1,
    (assignNodeIds_ground_index_zero [0, 1] 0).2 1 (by decide)⟩

/-- Claim C1 (counterexample to the claim as stated): binding a 5 V OUTPUT
pin to the ground node and solving completes (converged, 2 iterations)
with solved voltage 5 — not 0 — at matrix index 0: no stamp ever pins the
ground row. -/
theorem solve_ground_voltage_five :
    (runSolve [0] (some 0) [outputPinOnGround] 100 (1 / 1000000)).map
      (fun r => (r.1, r.2.1, r.2.2.2.getD 0 0)) = some (true, 2, 5) := by
  with_unfolding_all decide

/-- Claim C4 (counterexample to the claim as stated): on a circuit whose
solved state coincides with the pre-solve component values (a resistor to
ground and an INPUT pin, everything at 0), the solve terminates converged
after exactly one iteration, because `initialize` seeded `m_prevValues`
with the pre-solve values. -/
theorem solve_converges_first_iteration :
    (runSolve [0, 1] (some 0) [quiescentResistor, quiescentInputPin] 100 (1 / 1000000)).map
      (fun r => (r.1, r.2.1)) = some (true, 1) := by
  with_unfolding_all decide

/-! ### First-iteration convergence -/

/-- Replacing the value at key `k` does not affect `find?` for another
key. -/
theorem find?_map_replace (k k' : ℕ) (val : ℚ × ℚ) (h : k' ≠ k) (l : List (ℕ × (ℚ × ℚ))) :
    (l.map (fun e => if e.1 = k then (k, val) else e)).find? (fun e => e.1 = k')
      = l.find? (fun e => e.1 = k') := by
  induction l with
  | nil => rfl
  | cons e rest ih =>
    rw [List.map_cons]
    by_cases he : e.1 = k
    · rw [if_pos he, List.find?_cons_of_neg _ (by simp [Ne.symm h]),
        List.find?_cons_of_neg _ (by simp [he, Ne.symm h])]
      exact ih
    · rw [if_neg he]
      by_cases he' : e.1 = k'
      · rw [List.find?_cons_of_pos _ (by simp [he']), List.find?_cons_of_pos _ (by simp [he'])]
      · rw [List.find?_cons_of_neg _ (by simp [he']), List.find?_cons_of_neg _ (by simp [he'])]
        exact ih

/-- Appending an entry for key `k` does not affect `find?` for another
key. -/
theorem find?_append_single (k k' : ℕ) (val : ℚ × ℚ) (h : k' ≠ k) (l : List (ℕ × (ℚ × ℚ))) :
    (l ++ [(k, val)]).find? (fun e => e.1 = k') = l.find? (fun e => e.1 = k') := by
  induction l with
  | nil =>
    rw [List.nil_append, List.find?_cons_of_neg _ (by simp [Ne.symm h])]
  | cons e rest ih =>
    rw [List.cons_append]
    by_cases he' : e.1 = k'
    · rw [List.find?_cons_of_pos _ (by simp [he']), List.find?_cons_of_pos _ (by simp [he'])]
    · rw [List.find?_cons_of_neg _ (by simp [he']), List.find?_cons_of_neg _ (by simp [he'])]
      exact ih

/-- Updating one key of the previous-values table leaves lookups of other
keys unchanged. -/
theorem lookupPrev_updPrev_ne (prev : List (ℕ × (ℚ × ℚ))) (k k' : ℕ) (val : ℚ × ℚ)
    (h : k' ≠ k) : lookupPrev (updPrev prev k val) k' = lookupPrev prev k' := by
  unfold updPrev lookupPrev
  by_cases hs : ((prev.find? (fun e => e.1 = k)).isSome : Prop)
  · rw [if_pos hs, find?_map_replace k k' val h prev]
  · rw [if_neg hs, find?_append_single k k' val h prev]

/-- A converged pass of the convergence loop means every component's
stored (V, I) is within tolerance of its previous-values entry. -/
theorem hasConvergedAux_true (tol : ℚ) :
    ∀ (comps : List SimComp) (prev : List (ℕ × (ℚ × ℚ))) (k0 : ℕ),
      (hasConvergedAux tol prev comps k0).1 = true →
      ∀ j c, comps[j]? = some c →
        ∃ pv, lookupPrev prev (k0 + j) = some pv
          ∧ |c.v - pv.1| ≤ tol ∧ |c.i - pv.2| ≤ tol := by
  intro comps
  induction comps with
  | nil =>
    intro prev k0 _ j c hj
    rw [List.getElem?_nil] at hj
    exact Option.noConfusion hj
  | cons c0 rest ih =>
    intro prev k0 htrue j c hj
    unfold hasConvergedAux at htrue
    cases hlk : lookupPrev prev k0 with
    | none =>
      simp only [hlk] at htrue
      exact Bool.noConfusion htrue
    | some pv0 =>
      simp only [hlk] at htrue
      by_cases hdiff : (|c0.v - pv0.1| > tol ∨ |c0.i - pv0.2| > tol)
      · rw [if_pos hdiff] at htrue
        exact Bool.noConfusion htrue
      · rw [if_neg hdiff] at htrue
        push_neg at hdiff
        cases j with
        | zero =>
          rw [List.getElem?_cons_zero] at hj
          injection hj with hj
          subst hj
          exact ⟨pv0, by simpa using hlk, hdiff.1, hdiff.2⟩
        | succ j =>
          rw [List.getElem?_cons_succ] at hj
          obtain ⟨pv, hpv, h1, h2⟩ := ih (updPrev prev k0 (c0.v, c0.i)) (k0 + 1) htrue j c hj
          refine ⟨pv, ?_, h1, h2⟩
          rw [lookupPrev_updPrev_ne prev k0 (k0 + 1 + j) (c0.v, c0.i) (by omega)] at hpv
          rw [show k0 + (j + 1) = k0 + 1 + j by omega]
          exact hpv

/-- A result of the solve loop never reports an iteration count below the
starting count, and strictly above it when converged. -/
theorem solveLoop_count (idx : ℕ → ℤ) (tol : ℚ) :
    ∀ (fuel : ℕ) (ms : MSolve) (comps : List SimComp) (prev : List (ℕ × (ℚ × ℚ)))
      (ic : ℕ) (lastSol : List ℚ) (res : Bool × ℕ × List SimComp × List ℚ),
      solveLoop idx tol ms comps prev ic lastSol fuel = some res →
      ic ≤ res.2.1 ∧ (res.1 = true → ic < res.2.1) := by
  intro fuel
  induction fuel with
  | zero =>
    intro ms comps prev ic lastSol res hres
    unfold solveLoop at hres
    injection hres with hres
    subst hres
    exact ⟨Nat.le_refl ic, fun h => Bool.noConfusion h⟩
  | succ fuel ih =>
    intro ms comps prev ic lastSol res hres
    unfold solveLoop at hres
    cases hs : (buildMatrices idx comps ms).solve with
    | none =>
      simp only [hs] at hres
      exact Option.noConfusion hres
    | some sol =>
      simp only [hs] at hres
      by_cases hc : ((hasConverged tol prev
          (updateComponentStates idx (buildMatrices idx comps ms).dim sol comps)).1 = true)
      · rw [if_pos hc] at hres
        injection hres with hres
        subst hres
        exact ⟨Nat.le_succ ic, fun _ => Nat.lt_succ_self ic⟩
      · rw [if_neg hc] at hres
        have := ih _ _ _ (ic + 1) _ res hres
        exact ⟨Nat.le_of_succ_le this.1, fun h => Nat.lt_of_succ_le ((this.2 h).le)⟩

/-- Claim C4 (amended): a solve is converged after exactly one iteration
precisely when the linear solve of the first stamping succeeds and the
convergence check of the resulting component states against the
previous-values table seeded before the loop passes; such a check passes
only when every component's new (V, I) is within tolerance of its stored
previous entry, and it never passes on an empty table (so only a circuit
with no electrical components can never converge on iteration one). -/
theorem solve_first_iteration_convergence (idx : ℕ → ℤ) (tol : ℚ) (ms : MSolve)
    (comps : List SimComp) (prev : List (ℕ × (ℚ × ℚ))) (ic fuel : ℕ) (lastSol : List ℚ) :
    ((hasConverged tol [] comps).1 = false)
    ∧ (∀ cs sol,
        solveLoop idx tol ms comps prev ic lastSol (fuel + 1) = some (true, ic + 1, cs, sol)
        ↔ ((buildMatrices idx comps ms).solve = some sol
            ∧ cs = updateComponentStates idx (buildMatrices idx comps ms).dim sol comps
            ∧ (hasConverged tol prev cs).1 = true))
    ∧ (∀ cs, (hasConverged tol prev cs).1 = true →
        prev ≠ [] ∧ ∀ j c, cs[j]? = some c →
          ∃ pv, lookupPrev prev j = some pv ∧ |c.v - pv.1| ≤ tol ∧ |c.i - pv.2| ≤ tol) := by
  refine ⟨rfl, ?_, ?_⟩
  · intro cs sol
    constructor
    · intro hres
      unfold solveLoop at hres
      cases hs : (buildMatrices idx comps ms).solve with
      | none =>
        simp only [hs] at hres
        exact Option.noConfusion hres
      | some sol' =>
        simp only [hs] at hres
        by_cases hc : ((hasConverged tol prev
            (updateComponentStates idx (buildMatrices idx comps ms).dim sol' comps)).1 = true)
        · rw [if_pos hc] at hres
          injection hres with hres
          injection hres with h1 hres
          injection hres with h2 hres
          injection hres with h3 h4
          subst h3
          subst h4
          exact ⟨rfl, rfl, hc⟩
        · rw [if_neg hc] at hres
          have hcount := solveLoop_count idx tol fuel _ _ _ (ic + 1) _ _ hres
          have hlt : ic + 1 < ic + 1 := hcount.2 rfl
          exact absurd hlt (lt_irrefl _)
    · intro ⟨hs, hcs, hc⟩
      subst hcs
      unfold solveLoop
      simp only [hs]
      rw [if_pos hc]
  · intro cs htrue
    unfold hasConverged at htrue
    by_cases hp : prev = []
    · rw [if_pos hp] at htrue
      exact Bool.noConfusion htrue
    · rw [if_neg hp] at htrue
      refine ⟨hp, ?_⟩
      intro j c hj
      have := hasConvergedAux_true tol cs prev 0 htrue j c hj
      simpa using this

/-- Closed instance of `solve_first_iteration_convergence`: the
empty-table clause at a concrete circuit, and the converged-check clause
instantiated at an empty component list with a seeded table. -/
theorem solve_first_iteration_convergence_witness :
    (hasConverged (1 / 1000000) [] [quiescentResistor]).1 = false
    ∧ [(0, ((0 : ℚ), (0 : ℚ)))] ≠ ([] : List (ℕ × (ℚ × ℚ))) := by
  have h := solve_first_iteration_convergence (fun _ => 0) (1 / 1000000)
    ⟨0, [], [], false⟩ [quiescentResistor] [(0, (0, 0))] 0 0 []
  refine ⟨h.1, ?_⟩
  have h3 := h.2.2 [] (by with_unfolding_all decide)
  exact h3.1

/-! ### One-terminal stamping -/

/-- Claim C8: during a stamping pass, a bound and indexed one-terminal
pin in an OUTPUT mode with set voltage above 0.01 V is stamped as a
voltage source to ground: its node's matrix row becomes the identity row
and its right-hand side entry the set voltage, all other rows untouched.
Any other bound one-terminal component is stamped as a conductance `1/R`
from its node to ground (added on the diagonal), with the right-hand side
untouched. -/
theorem stampComp_one_terminal (idx : ℕ → ℤ) (ms : MSolve) (comp : SimComp) (nd i : ℕ)
    (hterm : comp.terminals = [some nd])
    (hidx : idx nd = (i : ℤ))
    (hdim : i < ms.dim)
    (hsetup : ms.isSetup = true)
    (hglen : ms.g.length = ms.dim)
    (hrlen : ms.rhs.length = ms.dim)
    (hres : 0 < comp.resistance)
    (hcond : mEps ≤ 1 / comp.resistance) :
    ((comp.isPin = true ∧ comp.isOutput = true ∧ 1 / 100 < comp.outputVoltage) →
      (stampComp idx ms comp).g.getD i [] = (List.replicate ms.dim (0 : ℚ)).set i 1
      ∧ (stampComp idx ms comp).rhs.getD i 0 = comp.outputVoltage
      ∧ (∀ j, j ≠ i → (stampComp idx ms comp).g.getD j [] = ms.g.getD j [])
      ∧ (∀ j, j ≠ i → (stampComp idx ms comp).rhs.getD j 0 = ms.rhs.getD j 0))
    ∧ (¬(comp.isPin = true ∧ comp.isOutput = true ∧ 1 / 100 < comp.outputVoltage) →
      stampComp idx ms comp = { ms with g := addMat ms.g i i (1 / comp.resistance) }) := by
  have hni : ¬((i : ℤ) < 0) := by
    exact not_lt.mpr (Int.ofNat_nonneg i)
  have hstamp : stampComp idx ms comp =
      (if comp.isPin = true ∧ comp.isOutput = true then
        if 1 / 100 < comp.outputVoltage then
          ms.addVoltageSource (i : ℤ) (-1) comp.outputVoltage
        else ms.addConductance (i : ℤ) (-1) (1 / comp.resistance)
      else ms.addConductance (i : ℤ) (-1) (1 / comp.resistance)) := by
    unfold stampComp
    rw [hterm]
    simp only [List.length_singleton, List.getD_cons_zero, if_pos rfl, hidx,
      if_neg hni, if_neg (not_le.mpr hres), eq_self_iff_true, if_true]
  have hbound : (0 : ℤ) ≤ (i : ℤ) ∧ (i : ℤ) < (ms.dim : ℤ) :=
    ⟨Int.ofNat_nonneg i, by exact_mod_cast hdim⟩
  have hvs : ms.addVoltageSource (i : ℤ) (-1) comp.outputVoltage =
      { ms with
          g := ms.g.set i ((List.replicate ms.dim (0 : ℚ)).set i 1)
          rhs := ms.rhs.set i comp.outputVoltage } := by
    unfold MSolve.addVoltageSource MSolve.setNodeVoltage
    rw [if_neg (by simp [hsetup]), if_pos rfl, if_pos hbound,
      if_neg (by
        simp only [hsetup, Bool.not_eq_true]
        push_neg
        refine ⟨by simp, hbound.1, hbound.2⟩)]
    simp
  have hac : ms.addConductance (i : ℤ) (-1) (1 / comp.resistance) =
      { ms with g := addMat ms.g i i (1 / comp.resistance) } := by
    unfold MSolve.addConductance
    have hnc : ¬(¬ms.isSetup = true ∨ 1 / comp.resistance < mEps) := by
      push_neg
      exact ⟨by simp [hsetup], hcond⟩
    rw [if_neg hnc, if_pos rfl, if_pos hbound]
    simp
  constructor
  · intro ⟨hp, ho, hv⟩
    rw [hstamp, if_pos ⟨hp, ho⟩, if_pos hv, hvs]
    refine ⟨?_, ?_, ?_, ?_⟩
    · exact getD_set_self (by rw [hglen]; exact hdim) _ _
    · exact getD_set_self (by rw [hrlen]; exact hdim) _ _
    · intro j hj
      exact getD_set_ne (Ne.symm hj) _ _
    · intro j hj
      exact getD_set_ne (Ne.symm hj) _ _
  · intro hnot
    by_cases hpo : (comp.isPin = true ∧ comp.isOutput = true)
    · have hv : ¬(1 / 100 < comp.outputVoltage) := fun hv => hnot ⟨hpo.1, hpo.2, hv⟩
      rw [hstamp, if_pos hpo, if_neg hv, hac]
    · rw [hstamp, if_neg hpo, hac]

/-- Closed instance of `stampComp_one_terminal`: a 5 V OUTPUT pin on the
node with index 0 of a cleared 1×1 system yields the identity row with
right-hand side 5. -/
theorem stampComp_one_terminal_witness :
    (stampComp (fun _ => 0) stampExampleMatrix stampExamplePin).g.getD 0 []
        = (List.replicate 1 (0 : ℚ)).set 0 1
    ∧ (stampComp (fun _ => 0) stampExampleMatrix stampExamplePin).rhs.getD 0 0 = 5 := by
  have h := (stampComp_one_terminal (fun _ => 0) stampExampleMatrix stampExamplePin 0 0
      rfl rfl (by decide) rfl rfl rfl (by norm_num [stampExamplePin])
      (by norm_num [stampExamplePin, mEps])).1
      ⟨rfl, rfl, by norm_num [stampExamplePin]⟩
  exact ⟨h.1, h.2.1⟩

/-! ### Scheduler invariants -/

/-- `doUpdate` from a quiescent state with no armed timer and a gap of at
least `minInterval` since the previous solve restart re-establishes the
scheduler invariant. -/
theorem doUpdate_inv (m : ℕ) (s : SchedState) (now : ℕ)
    (h1 : s.isUpdating = false) (htn : s.timerFire = none)
    (h4 : ∀ u ∈ s.solveLog, u ≤ s.lastUpdate)
    (h5 : s.solveLog.Pairwise (fun a b => a + m ≤ b))
    (hgap : s.lastUpdate + m ≤ now) :
    SchedInv m (doUpdate s now) := by
  unfold doUpdate SchedInv
  refine ⟨h1, ?_, by simp [htn], ?_, ?_⟩
  · intro f hf
    simp [htn] at hf
  · intro u hu
    cases hr : s.running with
    | true =>
      simp only [hr, if_true] at hu
      show u ≤ now
      rcases List.mem_append.mp hu with h | h
      · have := h4 u h
        omega
      · simp at h
        omega
    | false =>
      simp only [hr] at hu
      simp at hu
      show u ≤ now
      have := h4 u hu
      omega
  · cases hr : s.running with
    | true =>
      simp only [hr, if_true]
      rw [List.pairwise_append]
      refine ⟨h5, List.pairwise_singleton _ _, ?_⟩
      intro a ha b hb
      simp at hb
      subst hb
      have := h4 a ha
      omega
    | false =>
      simp only [hr]
      simpa using h5

/-- Delivering a due timer callback preserves the scheduler invariant,
keeps the restart instant at or before `now`, and leaves any remaining
armed timer strictly in the future. -/
theorem deliverTimer_inv (m : ℕ) (s : SchedState) (now : ℕ)
    (hinv : SchedInv m s) (hle : s.lastUpdate ≤ now) :
    SchedInv m (deliverTimer s now) ∧ (deliverTimer s now).lastUpdate ≤ now
      ∧ (∀ f, (deliverTimer s now).timerFire = some f → ¬f ≤ now) := by
  obtain ⟨h1, h2, h3, h4, h5⟩ := hinv
  cases ht : s.timerFire with
  | none =>
    have hd : deliverTimer s now = s := by
      unfold deliverTimer
      rw [ht]
    rw [hd]
    exact ⟨⟨h1, h2, h3, h4, h5⟩, hle, fun f hf => absurd hf (by simp [ht])⟩
  | some f =>
    obtain ⟨hp, hf⟩ := h2 f ht
    have hd : deliverTimer s now =
        if f ≤ now then doUpdate { s with timerFire := none } f else s := by
      unfold deliverTimer
      rw [ht]
    by_cases hfn : f ≤ now
    · rw [hd, if_pos hfn]
      refine ⟨doUpdate_inv m _ f h1 rfl h4 h5 (by show s.lastUpdate + m ≤ f; omega),
        hfn, ?_⟩
      intro f' hf'
      simp [doUpdate] at hf'
    · rw [hd, if_neg hfn]
      refine ⟨⟨h1, h2, h3, h4, h5⟩, hle, ?_⟩
      intro f' hf'
      rw [ht] at hf'
      injection hf' with hf'
      subst hf'
      exact hfn

/-- A `triggerUpdate` call from a state satisfying the invariant whose
armed timer (if any) is still in the future preserves the invariant. -/
theorem triggerUpdate_inv (m : ℕ) (s : SchedState) (now : ℕ)
    (hinv : SchedInv m s) (hle : s.lastUpdate ≤ now)
    (htimer : ∀ f, s.timerFire = some f → ¬f ≤ now) :
    SchedInv m (triggerUpdate m s now).1 ∧ (triggerUpdate m s now).1.lastUpdate ≤ now := by
  obtain ⟨h1, h2, h3, h4, h5⟩ := hinv
  have hni : ¬(s.isUpdating = true) := by simp [h1]
  by_cases he : now - s.lastUpdate < m
  · by_cases hp : s.updatePending = false
    · unfold triggerUpdate
      simp only [if_neg hni, if_pos he, if_pos hp]
      refine ⟨⟨h1, ?_, by simp, h4, h5⟩, hle⟩
      intro f hf
      have hf' : some (now + max 1 (m - (now - s.lastUpdate))) = some f := hf
      injection hf' with hf'
      subst hf'
      refine ⟨rfl, ?_⟩
      show now + max 1 (m - (now - s.lastUpdate)) = s.lastUpdate + m
      omega
    · unfold triggerUpdate
      simp only [if_neg hni, if_pos he, if_neg hp]
      exact ⟨⟨h1, h2, h3, h4, h5⟩, hle⟩
  · have htn : s.timerFire = none := by
      cases ht : s.timerFire with
      | none => rfl
      | some f =>
        obtain ⟨_, hff⟩ := h2 f ht
        exact absurd (by omega : f ≤ now) (htimer f ht)
    unfold triggerUpdate
    simp only [if_neg hni, if_neg he]
    exact ⟨doUpdate_inv m s now h1 htn h4 h5 (by omega), Nat.le_refl now⟩

/-- A whole nondecreasing sequence of trigger calls preserves the
scheduler invariant. -/
theorem runTriggers_inv (m : ℕ) :
    ∀ (ts : List ℕ) (s : SchedState), SchedInv m s →
      List.Chain' (· ≤ ·) (s.lastUpdate :: ts) →
      SchedInv m (runTriggers m s ts) := by
  intro ts
  induction ts with
  | nil =>
    intro s hinv _
    exact hinv
  | cons t rest ih =>
    intro s hinv hchain
    have hle : s.lastUpdate ≤ t := (List.chain'_cons.mp hchain).1
    have hchain2 : List.Chain' (· ≤ ·) (t :: rest) := (List.chain'_cons.mp hchain).2
    obtain ⟨hd1, hd2, hd3⟩ := deliverTimer_inv m s t hinv hle
    obtain ⟨hs1, hs2⟩ := triggerUpdate_inv m (deliverTimer s t) t hd1 hd2 hd3
    have hstep : runTriggers m s (t :: rest) = runTriggers m (processTrigger m s t).1 rest := rfl
    rw [hstep]
    refine ih (processTrigger m s t).1 hs1 ?_
    rcases rest with _ | ⟨t2, rest2⟩
    · simp
    · rw [List.chain'_cons]
      exact ⟨Nat.le_trans hs2 (List.chain'_cons.mp hchain2).1, (List.chain'_cons.mp hchain2).2⟩

/-- A list whose consecutive elements are at least `m` apart has at most
one element in any half-open window of length `m`. -/
theorem pairwise_window (m : ℕ) :
    ∀ l : List ℕ, l.Pairwise (fun a b => a + m ≤ b) →
      ∀ t0, (l.filter (fun u => decide (t0 ≤ u) && decide (u < t0 + m))).length ≤ 1 := by
  intro l
  induction l with
  | nil =>
    intro _ t0
    simp
  | cons a rest ih =>
    intro hp t0
    have hpa := (List.pairwise_cons.mp hp).1
    have hpr := (List.pairwise_cons.mp hp).2
    by_cases hw : (t0 ≤ a ∧ a < t0 + m)
    · have hfa : (rest.filter (fun u => decide (t0 ≤ u) && decide (u < t0 + m))) = [] := by
        rw [List.filter_eq_nil_iff]
        intro b hb
        have := hpa b hb
        simp only [Bool.and_eq_true, decide_eq_true_eq, not_and, not_lt]
        omega
      rw [List.filter_cons, if_pos (by simp [hw.1, hw.2]), hfa]
      simp
    · rw [List.filter_cons, if_neg (by simp only [Bool.and_eq_true, decide_eq_true_eq]; exact hw)]
      exact ih hpr t0


/-- Claim C5: the `trigger_update` scheduling contract.  (1) A call
arriving while an update is in progress is dropped with no state change,
so no solve re-enters a solve.  (2) A call with elapsed time under
`min_interval` and no pending update schedules exactly one deferred solve
after `min_interval` minus elapsed and marks pending (the single-shot
timer means at most one deferred solve is ever outstanding).  (3) A call
while an update is pending is dropped.  (4) Otherwise the call solves
immediately, logging the solve start.  (5) Consequently, from any state
satisfying the scheduler invariant, a nondecreasing burst of trigger
calls keeps consecutive solve starts at least `min_interval` apart, so at
most one solve starts within any window of one `min_interval`. -/
theorem trigger_scheduling_spec (m : ℕ) (s : SchedState) (now : ℕ) :
    (s.isUpdating = true → triggerUpdate m s now = (s, TrigAction.droppedReentrant))
    ∧ (s.isUpdating = false → now - s.lastUpdate < m → s.updatePending = false →
        triggerUpdate m s now =
          ({ s with
              updatePending := true
              timerFire := some (now + (m - (now - s.lastUpdate))) },
            TrigAction.scheduled (m - (now - s.lastUpdate))))
    ∧ (s.isUpdating = false → now - s.lastUpdate < m → s.updatePending = true →
        triggerUpdate m s now = (s, TrigAction.droppedPending))
    ∧ (s.isUpdating = false → ¬(now - s.lastUpdate < m) →
        triggerUpdate m s now = (doUpdate s now, TrigAction.solvedNow)
        ∧ (s.running = true → (doUpdate s now).solveLog = s.solveLog ++ [now]))
    ∧ (∀ ts, SchedInv m s → List.Chain' (· ≤ ·) (s.lastUpdate :: ts) →
        (runTriggers m s ts).solveLog.Pairwise (fun a b => a + m ≤ b)
        ∧ ∀ t0, ((runTriggers m s ts).solveLog.filter
            (fun u => decide (t0 ≤ u) && decide (u < t0 + m))).length ≤ 1) := by
  refine ⟨?_, ?_, ?_, ?_, ?_⟩
  · intro h
    unfold triggerUpdate
    rw [if_pos h]
  · intro h1 h2 h3
    have hmax : max 1 (m - (now - s.lastUpdate)) = m - (now - s.lastUpdate) :=
      Nat.max_eq_right (by omega)
    unfold triggerUpdate
    simp only [if_neg (by simp [h1] : ¬(s.isUpdating = true)), if_pos h2, if_pos h3, hmax]
  · intro h1 h2 h3
    unfold triggerUpdate
    simp only [if_neg (by simp [h1] : ¬(s.isUpdating = true)), if_pos h2,
      if_neg (by simp [h3] : ¬(s.updatePending = false))]
  · intro h1 h2
    unfold triggerUpdate
    simp only [if_neg (by simp [h1] : ¬(s.isUpdating = true)), if_neg h2]
    refine ⟨trivial, ?_⟩
    intro hr
    unfold doUpdate
    simp [hr]
  · intro ts hinv hchain
    have h := runTriggers_inv m ts s hinv hchain
    exact ⟨h.2.2.2.2, fun t0 => pairwise_window m _ h.2.2.2.2 t0⟩

/-- Closed instance of `trigger_scheduling_spec`: a burst of three calls
within 10 ms of the idle scheduler's start yields at most one solve in
the first 10 ms window, and a call during a solve is dropped unchanged. -/
theorem trigger_scheduling_spec_witness :
    ((runTriggers 10 idleSched [3, 5, 9]).solveLog.filter
        (fun u => decide (0 ≤ u) && decide (u < 0 + 10))).length ≤ 1
    ∧ triggerUpdate 10 { idleSched with isUpdating := true } 4
        = ({ idleSched with isUpdating := true }, TrigAction.droppedReentrant) := by
  have hinv : SchedInv 10 idleSched := by
    refine ⟨rfl, ?_, ?_, ?_, List.Pairwise.nil⟩
    · intro f hf
      exact Option.noConfusion hf
    · intro hp
      exact absurd hp (by decide)
    · intro u hu
      exact absurd hu (List.not_mem_nil u)
  have hchain : List.Chain' (fun a b => a ≤ b) (idleSched.lastUpdate :: [3, 5, 9]) := by
    refine List.chain'_cons.mpr ⟨by decide, ?_⟩
    refine List.chain'_cons.mpr ⟨by decide, ?_⟩
    refine List.chain'_cons.mpr ⟨by decide, ?_⟩
    simp
  refine ⟨((trigger_scheduling_spec 10 idleSched 0).2.2.2.2 [3, 5, 9] hinv hchain).2 0, ?_⟩
  exact (trigger_scheduling_spec 10 { idleSched with isUpdating := true } 4).1 rfl

/-! ### Theorems for claims C9 and C10 -/

/-- Claim C9: after `LED::updateState(V, I)`, the LED is on iff
`V > 0 ∧ I > 0 ∧ |V| ≥ V_f ∧ |I| > 10⁻⁶`; when on its dynamic resistance is
`25 + V_f / |I|`; when off its resistance is `10⁶` and its brightness `0`. -/
theorem led_updateState_spec (lg : ℚ → ℚ) (led : LEDState) (V I : ℚ) :
    ((LED.updateState lg led V I).isOn = true ↔
        (0 < V ∧ 0 < I ∧ led.forwardVoltage ≤ |V| ∧ MIN_CONDUCTION_CURRENT < |I|))
    ∧ ((LED.updateState lg led V I).isOn = true →
        (LED.updateState lg led V I).dynamicResistance = 25 + led.forwardVoltage / |I|)
    ∧ ((LED.updateState lg led V I).isOn = false →
        (LED.updateState lg led V I).dynamicResistance = OFF_RESISTANCE
          ∧ (LED.updateState lg led V I).brightness = 0) := by
  unfold LED.updateState LED.calculateElectricalState
  by_cases hcond : ((0 < V ∧ 0 < I) ∧ led.forwardVoltage ≤ |V| ∧ MIN_CONDUCTION_CURRENT < |I|)
  · obtain ⟨⟨h1, h2⟩, h3, h4⟩ := hcond
    simp only [h1, h2, h3, h4, and_self, if_pos, true_and, and_true]
    refine ⟨fun _ => ?_, by simp⟩
    unfold LED.calculateDynamicResistance
    rw [if_neg (not_le.mpr h4)]
  · rw [if_neg hcond]
    refine ⟨?_, by simp, by simp⟩
    simp only [show ((false : Bool) = true) = False by simp, false_iff]
    intro ⟨h1, h2, h3, h4⟩
    exact hcond ⟨⟨h1, h2⟩, h3, h4⟩

/-- Closed instance of `led_updateState_spec`: a red LED driven at
2 V and 20 mA turns on with dynamic resistance 115 Ω. -/
theorem led_updateState_spec_witness :
    (LED.updateState (fun _ => 0) LED.red 2 (1 / 50)).isOn = true
      ∧ (LED.updateState (fun _ => 0) LED.red 2 (1 / 50)).dynamicResistance = 115 := by
  have h := led_updateState_spec (fun _ => 0) LED.red 2 (1 / 50)
  have habs : |(1 : ℚ) / 50| = 1 / 50 := abs_of_pos (by norm_num)
  have hon : (LED.updateState (fun _ => 0) LED.red 2 (1 / 50)).isOn = true := by
    refine h.1.mpr ⟨by norm_num, by norm_num, ?_, ?_⟩
    · rw [show |(2 : ℚ)| = 2 from abs_of_pos (by norm_num)]
      norm_num [LED.red]
    · rw [habs]; norm_num [MIN_CONDUCTION_CURRENT]
  refine ⟨hon, ?_⟩
  have hres := h.2.1 hon
  rw [hres, habs]
  norm_num [LED.red]

/-- Claim C10: for a `DigitalPin` whose mode is not OUTPUT, `digitalWrite`
is a silent no-op: the state is returned unchanged and no signal is
emitted. -/
theorem digitalWrite_non_output_noop (p : DigitalPinState) (v : Bool)
    (h : p.mode ≠ PinMode.output) :
    DigitalPin.digitalWrite p v = (p, ⟨false, false⟩) := by
  unfold DigitalPin.digitalWrite
  simp [h]

/-- Closed instance of `digitalWrite_non_output_noop` at an INPUT-mode pin. -/
theorem digitalWrite_non_output_noop_witness :
    DigitalPin.digitalWrite (DigitalPin.mk0 PinMode.input) true
      = (DigitalPin.mk0 PinMode.input, ⟨false, false⟩) :=
  digitalWrite_non_output_noop (DigitalPin.mk0 PinMode.input) true (by decide)

end ArduinoSim
